import Mathlib

/-!
# Cronjobber: schedule evaluation, job materialisation and active-set tracking

A shallow embedding of `pkg/controller/cronjobber/utils.go` and of the
simulated backends of `pkg/controller/cronjobber/injection.go`, together with
theorems about them.

Modelling conventions.

* A Go `time.Time` is an instant plus a location.  The instant is kept as a
  count of nanoseconds since the Unix epoch in an unbounded `Int`; `After`,
  `Before` and `Equal` compare instants only, as in Go, and `In` replaces the
  location only.
* A Go `time.Duration` is an `int64` count of nanoseconds; arithmetic on it
  wraps modulo `2^64`, made explicit with `wrapInt64`.
* A Go slice is a `List` (so a nil slice and an empty slice are the same
  value), a Go map from strings to strings is an association list, a nilable
  pointer is an `Option`, and a Go `error` is an `Option String` holding the
  message.
* `cron.ParseStandard` belongs to an external library and is a parameter: a
  function from the schedule expression to either an error message or a
  `Schedule`, whose only capability is `next`.
* Calls to the logger change no result and are left out, and with them the
  logger arguments.
* The host clock (`time.Now`) and the timezone database (`time.LoadLocation`)
  are inputs of the one function that reads them.
-/

namespace Cronjobber

/-! ## Time -/

/-- A `*time.Location`, identified by its name. -/
structure Location where
  name : String
  deriving DecidableEq, Repr

/-- A `time.Time`: an instant (nanoseconds since the Unix epoch) and a location. -/
structure Time where
  unixNano : Int
  loc : Location
  deriving DecidableEq, Repr

/-- `t.After(u)`: the instant of `t` is after the instant of `u`. -/
def Time.After (t u : Time) : Bool := decide (u.unixNano < t.unixNano)

/-- `t.Before(u)`: the instant of `t` is before the instant of `u`. -/
def Time.Before (t u : Time) : Bool := decide (t.unixNano < u.unixNano)

/-- `t.Equal(u)`: same instant, whatever the locations. -/
def Time.Equal (t u : Time) : Bool := decide (t.unixNano = u.unixNano)

/-- `t.Location()`. -/
def Time.Location (t : Time) : Cronjobber.Location := t.loc

/-- `t.In(loc)`: the same instant, shown in another location. -/
def Time.In (t : Time) (l : Cronjobber.Location) : Time := { t with loc := l }

/-- `t.Add(d)` for a duration `d` in nanoseconds. -/
def Time.Add (t : Time) (d : Int) : Time := { t with unixNano := t.unixNano + d }

/-- `t.Unix()`: whole seconds since the epoch (rounded towards minus infinity). -/
def Time.Unix (t : Time) : Int := t.unixNano / 1000000000

/-- Two's-complement wrap-around of an integer into the `int64` range. -/
def wrapInt64 (x : Int) : Int := (x + 2 ^ 63) % 2 ^ 64 - 2 ^ 63

/-- `time.Second`, in nanoseconds. -/
def Second : Int := 1000000000

/-! ## Kubernetes objects -/

/-- `types.UID`. -/
abbrev UID := String

/-- A Go `map[string]string`. -/
abbrev StringMap := List (String × String)

/-- `m[k] = v` on an association list. -/
def StringMap.set (m : StringMap) (k v : String) : StringMap :=
  (k, v) :: m.filter (fun p => p.1 != k)

/-- `v1.ObjectReference`. -/
structure ObjectReference where
  kind : String
  namespaceName : String
  name : String
  uid : UID
  apiVersion : String
  resourceVersion : String
  fieldPath : String
  deriving DecidableEq, Repr

/-- `metav1.OwnerReference`. -/
structure OwnerReference where
  apiVersion : String
  kind : String
  name : String
  uid : UID
  controller : Option Bool
  blockOwnerDeletion : Option Bool
  deriving DecidableEq, Repr

/-- The fields of `metav1.ObjectMeta` the controller reads or writes. -/
structure ObjectMeta where
  name : String
  namespaceName : String
  selfLink : String
  uid : UID
  creationTimestamp : Time
  labels : StringMap
  annotations : StringMap
  ownerReferences : List OwnerReference
  deriving DecidableEq, Repr

/-- `batchv1.JobSpec`, copied verbatim and never inspected by the controller. -/
structure JobSpec where
  payload : String
  deriving DecidableEq, Repr

/-- `batchv1.JobCondition`, reduced to its type and status. -/
structure JobCondition where
  type : String
  status : String
  deriving DecidableEq, Repr

/-- `batchv1.JobStatus`. -/
structure JobStatus where
  conditions : List JobCondition
  startTime : Option Time
  deriving DecidableEq, Repr

/-- `batchv1.Job`. -/
structure Job where
  meta : ObjectMeta
  spec : JobSpec
  status : JobStatus
  deriving DecidableEq, Repr

/-- `batchv1beta1.JobTemplateSpec`. -/
structure JobTemplateSpec where
  meta : ObjectMeta
  spec : JobSpec
  deriving DecidableEq, Repr

/-- `cronjobberv1.TZCronJobSpec`. -/
structure TZCronJobSpec where
  schedule : String
  timeZone : String
  startingDeadlineSeconds : Option Int
  concurrencyPolicy : String
  jobTemplate : JobTemplateSpec
  deriving DecidableEq, Repr

/-- `cronjobberv1.TZCronJobStatus`. -/
structure TZCronJobStatus where
  active : List ObjectReference
  lastScheduleTime : Option Time
  deriving DecidableEq, Repr

/-- `cronjobberv1.TZCronJob`. -/
structure TZCronJob where
  meta : ObjectMeta
  spec : TZCronJobSpec
  status : TZCronJobStatus
  deriving DecidableEq, Repr

/-! ## The schedule evaluator -/

/-- A parsed `cron.Schedule`: the one capability the controller uses. -/
structure Schedule where
  next : Time → Time

/-- The message of the error returned when more than 100 start times were missed. -/
def tooManyMissedStartTimes : String :=
  "too many missed start time (> 100). Set or decrease .spec.startingDeadlineSeconds or check clock skew"

/-- The message of the error returned for a schedule that does not parse. -/
def unparseableSchedule (schedule err : String) : String :=
  "Unparseable schedule: " ++ schedule ++ " : " ++ err

/-- Lines 100-119 of `getRecentUnmetScheduleTimes`: the last known start time
(or the creation time), moved forward to the scheduling deadline when that is
later. -/
def earliestTime (sj : TZCronJob) (now : Time) : Time :=
  let earliestTime : Time :=
    match sj.status.lastScheduleTime with
    | some last => last.In now.Location
    | none => sj.meta.creationTimestamp.In now.Location
  match sj.spec.startingDeadlineSeconds with
  | some secs =>
    let schedulingDeadline := (now.Add (wrapInt64 (-Second * secs))).In now.Location
    if schedulingDeadline.After earliestTime then schedulingDeadline else earliestTime
  | none => earliestTime

/-- The `for` loop of `getRecentUnmetScheduleTimes` (lines 124-148), entered
with the candidate `t` and the slice `starts` collected so far. -/
def collectStarts (sched : Schedule) (now : Time) (t : Time) (starts : List Time) :
    List Time × Option String :=
  if t.After now then (starts, none)
  else if 100 < (starts ++ [t]).length then ([], some tooManyMissedStartTimes)
  else collectStarts sched now (sched.next t) (starts ++ [t])
termination_by 101 - starts.length
decreasing_by
  all_goals simp_wf
  all_goals simp only [List.length_append, List.length_singleton] at *
  all_goals omega

/-- `getRecentUnmetScheduleTimes`: the times, oldest first, at which a job
should have started but did not, and the error if any. -/
def getRecentUnmetScheduleTimes (parseStandard : String → Except String Schedule)
    (sj : TZCronJob) (now : Time) : List Time × Option String :=
  let starts : List Time := []
  match parseStandard sj.spec.schedule with
  | .error err => (starts, some (unparseableSchedule sj.spec.schedule err))
  | .ok sched =>
    let earliest := earliestTime sj now
    if earliest.After now then ([], none)
    else collectStarts sched now (sched.next earliest) starts

/-! ## The job materialiser -/

/-- `schema.GroupVersionKind`. -/
structure GroupVersionKind where
  group : String
  version : String
  kind : String
  deriving DecidableEq, Repr

/-- `gvk.GroupVersion().String()`. -/
def GroupVersionKind.groupVersionString (gvk : GroupVersionKind) : String :=
  if 0 < gvk.group.length then gvk.group ++ "/" ++ gvk.version else gvk.version

/-- Modelled from the spec: the package variable `controllerKind`, declared in a
file of the controller that is not at hand.  The owner reference "is set to the
record", whose kind is the one `getParentUIDFromJob` compares with, and the
group and version are those of the typed client (`v1alpha1.SchemeGroupVersion`). -/
def controllerKind : GroupVersionKind :=
  { group := "cronjobber.hidde.co", version := "v1alpha1", kind := "TZCronJob" }

/-- `metav1.NewControllerRef(owner, gvk)` for an owner with the given metadata. -/
def NewControllerRef (owner : ObjectMeta) (gvk : GroupVersionKind) : OwnerReference :=
  let blockOwnerDeletion := true
  let isController := true
  { apiVersion := gvk.groupVersionString
    kind := gvk.kind
    name := owner.name
    uid := owner.uid
    blockOwnerDeletion := some blockOwnerDeletion
    controller := some isController }

/-- `metav1.GetControllerOf`: the first owner reference whose `Controller`
pointer is set and true. -/
def GetControllerOf : List OwnerReference → Option OwnerReference
  | [] => none
  | ref :: refs =>
    if ref.controller.isSome && ref.controller.getD false then some ref
    else GetControllerOf refs

/-- `getParentUIDFromJob`: the UID of the job's parent and whether it was found. -/
def getParentUIDFromJob (j : Job) : UID × Bool :=
  match GetControllerOf j.meta.ownerReferences with
  | none => ("", false)
  | some controllerRef =>
    if controllerRef.kind != "TZCronJob" then ("", false)
    else (controllerRef.uid, true)

/-- `copyLabels`: a fresh map holding the labels of the job template. -/
def copyLabels (template : JobTemplateSpec) : StringMap :=
  template.meta.labels.foldl (fun l kv => l.set kv.1 kv.2) []

/-- `copyAnnotations`: a fresh map holding the annotations of the job template. -/
def copyAnnotations (template : JobTemplateSpec) : StringMap :=
  template.meta.annotations.foldl (fun a kv => a.set kv.1 kv.2) []

/-- `getTimeHash`: the Unix epoch time, in seconds. -/
def getTimeHash (scheduledTime : Time) : Int := scheduledTime.Unix

/-- The `%d` verb of `fmt.Sprintf` on an integer: an optional minus sign and
the decimal digits of the absolute value. -/
def formatDecimal (i : Int) : String :=
  if i < 0 then "-" ++ Nat.repr i.natAbs else Nat.repr i.natAbs

/-- The zero `time.Time`: 1 January of year 1, 00:00:00 UTC. -/
def Time.zero : Time := { unixNano := -62135596800000000000, loc := { name := "UTC" } }

/-- `getJobFromTemplate`: makes a job from a cron job and a scheduled time.
The fields the composite literal leaves out take their zero values. -/
def getJobFromTemplate (sj : TZCronJob) (scheduledTime : Time) : Job × Option String :=
  let labels := copyLabels sj.spec.jobTemplate
  let annotations := copyAnnotations sj.spec.jobTemplate
  let name := sj.meta.name ++ "-" ++ formatDecimal (getTimeHash scheduledTime)
  let job : Job :=
    { meta :=
        { labels := labels
          annotations := annotations
          name := name
          ownerReferences := [NewControllerRef sj.meta controllerKind]
          namespaceName := ""
          selfLink := ""
          uid := ""
          creationTimestamp := Time.zero }
      spec := sj.spec.jobTemplate.spec
      status := { conditions := [], startTime := none } }
  (job, none)

/-! ## The active-set tracker -/

/-- The loop of `inActiveList` over the active references. -/
def inActiveListLoop (uid : UID) : List ObjectReference → Bool
  | [] => false
  | j :: js => if j.uid = uid then true else inActiveListLoop uid js

/-- `inActiveList`: whether a reference with this UID is in the active list. -/
def inActiveList (sj : TZCronJob) (uid : UID) : Bool :=
  inActiveListLoop uid sj.status.active

/-- `deleteFromActiveList`, as the record the pointer leads to after the call
(`none` is the nil pointer). -/
def deleteFromActiveList (sj : Option TZCronJob) (uid : UID) : Option TZCronJob :=
  match sj with
  | none => none
  | some sj =>
    let newActive : List ObjectReference :=
      sj.status.active.foldl (fun newActive j => if j.uid != uid then newActive ++ [j] else newActive) []
    some { sj with status := { sj.status with active := newActive } }

/-! ## Notions the statements use -/

/-- The first `n` candidates the loop can visit from `t`: `t`, `next t`, ... -/
def orbit (next : Time → Time) : Nat → Time → List Time
  | 0, _ => []
  | n + 1, t => t :: orbit next n (next t)

/-- A list of times is strictly ascending (as instants). -/
def StrictlyAscending (ts : List Time) : Prop :=
  ts.Pairwise (fun a b => a.unixNano < b.unixNano)

/-- The operation `next` is the "next occurrence" operation, for arguments in
location `l`, of the schedule whose occurrences are the instants `occ`: it
keeps the location and returns the least occurrence strictly after its
argument. -/
def IsNextOccurrenceIn (l : Location) (occ : Int → Prop) (next : Time → Time) : Prop :=
  ∀ x : Time, x.loc = l →
    (next x).loc = l ∧ occ (next x).unixNano ∧ x.unixNano < (next x).unixNano ∧
      ∀ i : Int, occ i → x.unixNano < i → (next x).unixNano ≤ i

/-- The occurrences of a schedule after `lo` and not after `hi`. -/
def occurrencesBetween (occ : Int → Prop) (lo hi : Int) : Set Int :=
  {i | occ i ∧ lo < i ∧ i ≤ hi}

/-- One minute, in nanoseconds. -/
def Minute : Int := 60 * Second

/-- One hour, in nanoseconds. -/
def Hour : Int := 3600 * Second

/-- What the external cron library computes for the expression `"0 * * * *"`
in a location whose offset from UTC is a whole number of hours: the next
occurrence is the first full hour strictly after the argument, in the
argument's location.  It instantiates the `Schedule` parameter in the hourly
scenarios. -/
def hourlySchedule : Schedule :=
  { next := fun t => { unixNano := (t.unixNano / Hour + 1) * Hour, loc := t.loc } }

/-- The occurrences of `hourlySchedule`: the full hours. -/
def hourlyOccurrence (i : Int) : Prop := i % Hour = 0

/-- A parser that knows the hourly schedule only. -/
def parseHourlyOnly (schedule : String) : Except String Schedule :=
  if schedule = "0 * * * *" then .ok hourlySchedule else .error "unsupported expression"

/-- A record with the hourly schedule, created at `created`, for the scenarios. -/
def hourlyRecord (created : Time) (deadline : Option Int) (last : Option Time) : TZCronJob :=
  { meta :=
      { name := "hourly", namespaceName := "default", selfLink := "", uid := "uid-1"
        creationTimestamp := created, labels := [], annotations := [], ownerReferences := [] }
    spec :=
      { schedule := "0 * * * *", timeZone := "", startingDeadlineSeconds := deadline
        concurrencyPolicy := "Allow"
        jobTemplate :=
          { meta :=
              { name := "", namespaceName := "", selfLink := "", uid := ""
                creationTimestamp := Time.zero, labels := [("app", "demo")], annotations := []
                ownerReferences := [] }
            spec := { payload := "echo" } } }
    status := { active := [], lastScheduleTime := last } }

/-- The number a list of decimal digits stands for. -/
def decimalValue (cs : List Char) : Nat :=
  cs.foldl (fun acc c => 10 * acc + (c.toNat - 48)) 0

/-- Reading back a decimal numeral with an optional leading minus sign. -/
def parseDecimal (s : String) : Int :=
  if s.data.head? = some '-' then -(decimalValue s.data.tail : Int) else decimalValue s.data

/-- A record with the given name and UID, for examples about job names. -/
def recordNamed (name : String) (uid : UID) : TZCronJob :=
  { meta :=
      { name := name, namespaceName := "default", selfLink := "", uid := uid
        creationTimestamp := Time.zero, labels := [], annotations := [], ownerReferences := [] }
    spec :=
      { schedule := "0 * * * *", timeZone := "", startingDeadlineSeconds := none
        concurrencyPolicy := "Allow"
        jobTemplate :=
          { meta :=
              { name := "", namespaceName := "", selfLink := "", uid := ""
                creationTimestamp := Time.zero, labels := [], annotations := []
                ownerReferences := [] }
            spec := { payload := "echo" } } }
    status := { active := [], lastScheduleTime := none } }

/-! ## Grouping, completion, ordering and the current time -/

/-- A Go `map[types.UID][]batchv1.Job`, as an association list. -/
abbrev JobsByUID := List (UID × List Job)

/-- The value `m[k]` of a Go map: the zero value (a nil slice) when the key is absent. -/
def JobsByUID.get : JobsByUID → UID → List Job
  | [], _ => []
  | (k2, v) :: rest, k => if k2 = k then v else JobsByUID.get rest k

/-- The assignment `m[k] = v` of a Go map. -/
def JobsByUID.set : JobsByUID → UID → List Job → JobsByUID
  | [], k, v => [(k, v)]
  | (k2, v2) :: rest, k, v =>
    if k2 = k then (k, v) :: rest else (k2, v2) :: JobsByUID.set rest k v

/-- `groupJobsByParent`: groups jobs into a map keyed by the UID of the job's parent. -/
def groupJobsByParent (js : List Job) : JobsByUID :=
  js.foldl (fun jobsBySj job =>
    let (parentUID, found) := getParentUIDFromJob job
    if !found then jobsBySj
    else jobsBySj.set parentUID (jobsBySj.get parentUID ++ [job])) []

/-- `batchv1.JobComplete`. -/
def JobComplete : String := "Complete"

/-- `batchv1.JobFailed`. -/
def JobFailed : String := "Failed"

/-- `v1.ConditionTrue`. -/
def ConditionTrue : String := "True"

/-- The loop of `getFinishedStatus` over the conditions of the job. -/
def getFinishedStatusLoop : List JobCondition → Bool × String
  | [] => (false, "")
  | c :: cs =>
    if (c.type == JobComplete || c.type == JobFailed) && c.status == ConditionTrue then
      (true, c.type)
    else getFinishedStatusLoop cs

/-- `getFinishedStatus`: whether the job has finished, and with which condition type. -/
def getFinishedStatus (j : Job) : Bool × String :=
  getFinishedStatusLoop j.status.conditions

/-- `IsJobFinished`. -/
def IsJobFinished (j : Job) : Bool :=
  let (isFinished, _) := getFinishedStatus j
  isFinished

/-- `(*metav1.Time).Equal`: two nil pointers are equal, a nil and a non-nil one are not. -/
def metaTimeEqual : Option Time → Option Time → Bool
  | none, none => true
  | some t, some u => t.Equal u
  | _, _ => false

/-- `(*metav1.Time).Before`: false as soon as one of the pointers is nil. -/
def metaTimeBefore : Option Time → Option Time → Bool
  | some t, some u => t.Before u
  | _, _ => false

/-- The body of `byJobStartTime.Less` on the two jobs `o[i]` and `o[j]`. -/
def lessByJobStartTime (oi oj : Job) : Bool :=
  if oj.status.startTime.isNone then
    oi.status.startTime.isSome
  else if metaTimeEqual oi.status.startTime oj.status.startTime then
    decide (oi.meta.name < oj.meta.name)
  else
    metaTimeBefore oi.status.startTime oj.status.startTime

/-- `byJobStartTime.Less` on a slice of jobs and two indices within it. -/
def byJobStartTime.Less (o : List Job) (i j : Fin o.length) : Bool :=
  lessByJobStartTime (o.get i) (o.get j)

/-- `getCurrentTimeInZone`.  The reading of the host clock (`time.Now()`, taken
once on each path) and the timezone database (`time.LoadLocation`) are
parameters. -/
def getCurrentTimeInZone (timeNow : Time) (loadLocation : String → Except String Location)
    (sj : TZCronJob) : Time × Option String :=
  if sj.spec.timeZone = "" then (timeNow, none)
  else
    match loadLocation sj.spec.timeZone with
    | .error err => (timeNow, some err)
    | .ok loc => (timeNow.In loc, none)

/-- The scheduling deadline of `getRecentUnmetScheduleTimes` (line 114): `now`
plus the `int64` product of minus one second and the number of seconds. -/
def schedulingDeadline (now : Time) (secs : Int) : Time :=
  (now.Add (wrapInt64 (-Second * secs))).In now.Location

/-- The `for` loop of `getRecentUnmetScheduleTimes` with a budget of passes
through its body: `none` when the budget runs out before the loop returns. -/
def collectStartsWithin (sched : Schedule) (now : Time) :
    Nat → Time → List Time → Option (List Time × Option String)
  | fuel, t, starts =>
    if t.After now then some (starts, none)
    else
      match fuel with
      | 0 => none
      | fuel + 1 =>
        if 100 < (starts ++ [t]).length then some ([], some tooManyMissedStartTimes)
        else collectStartsWithin sched now fuel (sched.next t) (starts ++ [t])

/-- A schedule that does not advance: every next occurrence is the zero time.
That is the answer of the external cron library for an expression that parses
and has no occurrence, such as `"0 0 30 2 *"` (the 30th of February). -/
def stuckSchedule : Schedule := { next := fun _ => Time.zero }

/-- A parser that knows the expression `"0 0 30 2 *"` only, which parses and
never occurs. -/
def parseFebruary30Only (schedule : String) : Except String Schedule :=
  if schedule = "0 0 30 2 *" then .ok stuckSchedule else .error "unsupported expression"

/-- A record with the schedule `"0 0 30 2 *"`, created at `created`. -/
def february30Record (created : Time) (deadline : Option Int) (last : Option Time) : TZCronJob :=
  { hourlyRecord created deadline last with
    spec := { (hourlyRecord created deadline last).spec with schedule := "0 0 30 2 *" } }

/-! ## The simulated backends

The mutex of the simulated backends is left out: calls are taken one at a
time.  Every operation returns the backend after the call next to its results. -/

/-- A Go `[]byte`. -/
abbrev Bytes := List Nat

/-- `v1.Pod`, reduced to its metadata. -/
structure Pod where
  meta : ObjectMeta
  deriving DecidableEq, Repr

/-- The zero value of `batchv1.Job`, as in the composite literal `batchv1.Job{}`. -/
def Job.zero : Job :=
  { meta :=
      { name := "", namespaceName := "", selfLink := "", uid := "", creationTimestamp := Time.zero
        labels := [], annotations := [], ownerReferences := [] }
    spec := { payload := "" }
    status := { conditions := [], startTime := none } }

/-- `fakeJobControl`: the simulated job backend. -/
structure fakeJobControl where
  Job : Option Cronjobber.Job
  Jobs : List Cronjobber.Job
  DeleteJobName : List String
  Err : Option String
  UpdateJobName : List String
  PatchJobName : List String
  Patches : List Bytes
  deriving DecidableEq, Repr

/-- A `fakeJobControl` as Go makes it with `&fakeJobControl{}`. -/
def fakeJobControl.fresh : fakeJobControl :=
  { Job := none, Jobs := [], DeleteJobName := [], Err := none, UpdateJobName := []
    PatchJobName := [], Patches := [] }

/-- `fakeJobControl.CreateJob`: the backend after the call, the job the argument
points to after the call, the returned pointer and the returned error. -/
def fakeJobControl.CreateJob (f : fakeJobControl) (namespaceName : String) (job : Cronjobber.Job) :
    fakeJobControl × Cronjobber.Job × Option Cronjobber.Job × Option String :=
  if f.Err.isSome then (f, job, none, f.Err)
  else
    let job1 : Cronjobber.Job :=
      { job with meta := { job.meta with
          selfLink := "/api/batch/v1/namespaces/" ++ namespaceName ++ "/jobs/" ++ job.meta.name } }
    let f1 : fakeJobControl := { f with Jobs := f.Jobs ++ [job1] }
    let job2 : Cronjobber.Job := { job1 with meta := { job1.meta with uid := "test-uid" } }
    (f1, job2, some job2, none)

/-- `fakeJobControl.GetJob`. -/
def fakeJobControl.GetJob (f : fakeJobControl) (_namespaceName _name : String) :
    fakeJobControl × Option Cronjobber.Job × Option String :=
  if f.Err.isSome then (f, none, f.Err)
  else (f, f.Job, none)

/-- `fakeJobControl.UpdateJob`. -/
def fakeJobControl.UpdateJob (f : fakeJobControl) (_namespaceName : String) (job : Cronjobber.Job) :
    fakeJobControl × Option Cronjobber.Job × Option String :=
  if f.Err.isSome then (f, none, f.Err)
  else ({ f with UpdateJobName := f.UpdateJobName ++ [job.meta.name] }, some job, none)

/-- `fakeJobControl.PatchJob`. -/
def fakeJobControl.PatchJob (f : fakeJobControl) (_namespaceName : String) (name : String)
    (_pt : String) (data : Bytes) (_subresources : List String) :
    fakeJobControl × Option Cronjobber.Job × Option String :=
  if f.Err.isSome then (f, none, f.Err)
  else
    ({ f with PatchJobName := f.PatchJobName ++ [name], Patches := f.Patches ++ [data] },
      some Cronjobber.Job.zero, none)

/-- `fakeJobControl.DeleteJob`. -/
def fakeJobControl.DeleteJob (f : fakeJobControl) (_namespaceName : String) (name : String) :
    fakeJobControl × Option String :=
  if f.Err.isSome then (f, f.Err)
  else ({ f with DeleteJobName := f.DeleteJobName ++ [name] }, none)

/-- `fakeJobControl.Clear`. -/
def fakeJobControl.Clear (f : fakeJobControl) : fakeJobControl :=
  { f with DeleteJobName := [], Jobs := [], Err := none }

/-- `fakePodControl`: the simulated pod backend. -/
structure fakePodControl where
  Pods : List Pod
  DeletePodName : List String
  Err : Option String
  deriving DecidableEq, Repr

/-- `fakePodControl.ListPods`; the list options are not looked at. -/
def fakePodControl.ListPods (f : fakePodControl) (_namespaceName : String) (_opts : String) :
    fakePodControl × Option (List Pod) × Option String :=
  if f.Err.isSome then (f, none, f.Err)
  else (f, some f.Pods, none)

/-- `fakePodControl.DeletePod`. -/
def fakePodControl.DeletePod (f : fakePodControl) (_namespaceName : String) (name : String) :
    fakePodControl × Option String :=
  if f.Err.isSome then (f, f.Err)
  else ({ f with DeletePodName := f.DeletePodName ++ [name] }, none)

/-- A call of one operation of the simulated job backend, with its arguments. -/
inductive JobCall where
  | create (namespaceName : String) (job : Job)
  | get (namespaceName name : String)
  | update (namespaceName : String) (job : Job)
  | patch (namespaceName name pt : String) (data : Bytes) (subresources : List String)
  | delete (namespaceName name : String)

/-- The backend after a call and the error the call returned. -/
def fakeJobControl.call (f : fakeJobControl) : JobCall → fakeJobControl × Option String
  | .create ns job => ((f.CreateJob ns job).1, (f.CreateJob ns job).2.2.2)
  | .get ns name => ((f.GetJob ns name).1, (f.GetJob ns name).2.2)
  | .update ns job => ((f.UpdateJob ns job).1, (f.UpdateJob ns job).2.2)
  | .patch ns name pt data subs =>
    ((f.PatchJob ns name pt data subs).1, (f.PatchJob ns name pt data subs).2.2)
  | .delete ns name => f.DeleteJob ns name

/-- Consecutive calls on the simulated job backend: the backend after the last
call and the errors returned, in order. -/
def fakeJobControl.calls (f : fakeJobControl) : List JobCall → fakeJobControl × List (Option String)
  | [] => (f, [])
  | c :: cs => (((f.call c).1.calls cs).1, (f.call c).2 :: ((f.call c).1.calls cs).2)

/-- A call of one operation of the simulated pod backend, with its arguments. -/
inductive PodCall where
  | list (namespaceName opts : String)
  | delete (namespaceName name : String)

/-- The backend after a call and the error the call returned. -/
def fakePodControl.call (f : fakePodControl) : PodCall → fakePodControl × Option String
  | .list ns opts => ((f.ListPods ns opts).1, (f.ListPods ns opts).2.2)
  | .delete ns name => f.DeletePod ns name

/-- Consecutive calls on the simulated pod backend: the backend after the last
call and the errors returned, in order. -/
def fakePodControl.calls (f : fakePodControl) : List PodCall → fakePodControl × List (Option String)
  | [] => (f, [])
  | c :: cs => (((f.call c).1.calls cs).1, (f.call c).2 :: ((f.call c).1.calls cs).2)

/-- A job with the given name and start time and nothing else, for examples. -/
def jobNamed (name : String) (startTime : Option Time) : Job :=
  { Job.zero with
    meta := { Job.zero.meta with name := name }
    status := { conditions := [], startTime := startTime } }

/-! ## The loop, characterised -/

theorem collectStarts_eq_orbit (sched : Schedule) (now : Time) :
    ∀ (k : Nat) (t : Time) (starts : List Time), starts.length + (k + 1) = 101 →
      collectStarts sched now t starts =
        (if 100 < starts.length +
              ((orbit sched.next (k + 1) t).takeWhile (fun x => !x.After now)).length
          then ([], some tooManyMissedStartTimes)
          else (starts ++ (orbit sched.next (k + 1) t).takeWhile (fun x => !x.After now), none)) := by
  intro k
  induction k with
  | zero =>
    intro t starts hlen
    have hl : starts.length = 100 := by omega
    rw [collectStarts]
    by_cases h : t.After now = true
    · simp [orbit, h, hl]
    · simp [orbit, h, hl]
  | succ k ih =>
    intro t starts hlen
    rw [collectStarts]
    by_cases h : t.After now = true
    · have hl : ¬ 100 < starts.length := by omega
      simp [orbit, h, hl]
    · have hlt : ¬ 100 < (starts ++ [t]).length := by
        simp only [List.length_append, List.length_singleton]; omega
      rw [if_neg h, if_neg hlt, ih (sched.next t) (starts ++ [t])
        (by simp only [List.length_append, List.length_singleton]; omega)]
      have h2 : orbit sched.next (k + 1 + 1) t = t :: orbit sched.next (k + 1) (sched.next t) := rfl
      rw [h2, List.takeWhile_cons]
      simp only [h, Bool.not_false, if_true, List.length_cons, List.length_append,
        List.length_singleton, List.append_assoc, List.singleton_append, List.length_nil,
        Nat.zero_add, Nat.add_assoc, Nat.add_comm 1]

theorem getRecentUnmetScheduleTimes_eq (parseStandard : String → Except String Schedule)
    (sj : TZCronJob) (now : Time) (sched : Schedule)
    (hparse : parseStandard sj.spec.schedule = .ok sched) :
    getRecentUnmetScheduleTimes parseStandard sj now =
      (if (earliestTime sj now).After now then ([], none)
        else if 100 < ((orbit sched.next 101 (sched.next (earliestTime sj now))).takeWhile
              (fun x => !x.After now)).length
          then ([], some tooManyMissedStartTimes)
          else ((orbit sched.next 101 (sched.next (earliestTime sj now))).takeWhile
              (fun x => !x.After now), none)) := by
  unfold getRecentUnmetScheduleTimes
  rw [hparse]
  simp only []
  by_cases h : (earliestTime sj now).After now = true
  · rw [if_pos h, if_pos h]
  · rw [if_neg h, if_neg h, collectStarts_eq_orbit sched now 100 _ [] (by simp)]
    simp only [List.length_nil, Nat.zero_add, List.nil_append]

theorem collectStarts_stop (sched : Schedule) (now t : Time) (starts : List Time)
    (h : t.After now = true) : collectStarts sched now t starts = (starts, none) := by
  rw [collectStarts, if_pos h]

theorem collectStarts_step (sched : Schedule) (now t : Time) (starts : List Time)
    (h : t.After now = false) (hlen : starts.length < 100) :
    collectStarts sched now t starts = collectStarts sched now (sched.next t) (starts ++ [t]) := by
  rw [collectStarts]
  have hlt : ¬ 100 < (starts ++ [t]).length := by
    simp only [List.length_append, List.length_singleton]; omega
  simp only [h, Bool.false_eq_true, if_false, hlt]

theorem takeWhile_orbit_sound (next : Time → Time) (now : Time) (P : Time → Prop)
    (hP : ∀ x, P x → P (next x) ∧ x.unixNano < (next x).unixNano) :
    ∀ (n : Nat) (prev : Time), P prev →
      StrictlyAscending ((orbit next n (next prev)).takeWhile (fun x => !x.After now)) ∧
      ∀ x ∈ (orbit next n (next prev)).takeWhile (fun x => !x.After now),
        P x ∧ prev.unixNano < x.unixNano ∧ x.unixNano ≤ now.unixNano ∧
          (∃ y, P y ∧ x = next y) ∧ ∃ k : Nat, x = next^[k + 1] prev := by
  intro n
  induction n with
  | zero =>
    intro prev _
    simp [orbit, StrictlyAscending]
  | succ n ih =>
    intro prev hprev
    have hstep := hP prev hprev
    have horb : orbit next (n + 1) (next prev) = next prev :: orbit next n (next (next prev)) := rfl
    rw [horb, List.takeWhile_cons]
    by_cases h : (next prev).After now = true
    · simp [h, StrictlyAscending]
    · have hle : (next prev).unixNano ≤ now.unixNano := by
        simp only [Time.After, decide_eq_true_eq, not_lt] at h
        exact h
      simp only [h, Bool.not_false, if_true]
      obtain ⟨ihasc, ihmem⟩ := ih (next prev) hstep.1
      refine ⟨?_, ?_⟩
      · unfold StrictlyAscending
        rw [List.pairwise_cons]
        exact ⟨fun x hx => (ihmem x hx).2.1, ihasc⟩
      · intro x hx
        rcases List.mem_cons.mp hx with rfl | hx
        · exact ⟨hstep.1, hstep.2, hle, ⟨prev, hprev, rfl⟩, ⟨0, rfl⟩⟩
        · obtain ⟨h1, h2, h3, h4, k, hk⟩ := ihmem x hx
          refine ⟨h1, lt_trans hstep.2 h2, h3, h4, ⟨k + 1, ?_⟩⟩
          rw [hk, Function.iterate_succ_apply (next) (k + 1) prev]

theorem takeWhile_orbit_complete (next : Time → Time) (now : Time) (l : Location)
    (occ : Int → Prop) (hocc : IsNextOccurrenceIn l occ next) :
    ∀ (n : Nat) (prev : Time), prev.loc = l →
      ((orbit next n (next prev)).takeWhile (fun x => !x.After now)).length < n →
      ∀ i : Int, occ i → prev.unixNano < i → i ≤ now.unixNano →
        i ∈ ((orbit next n (next prev)).takeWhile (fun x => !x.After now)).map Time.unixNano := by
  intro n
  induction n with
  | zero =>
    intro prev _ hlen
    simp at hlen
  | succ n ih =>
    intro prev hprev hlen i hi hlo hhi
    obtain ⟨hloc, _, _, hleast⟩ := hocc prev hprev
    have hmin := hleast i hi hlo
    have horb : orbit next (n + 1) (next prev) = next prev :: orbit next n (next (next prev)) := rfl
    rw [horb, List.takeWhile_cons] at hlen ⊢
    by_cases h : (next prev).After now = true
    · simp only [Time.After, decide_eq_true_eq] at h
      omega
    · simp only [h, Bool.not_false, if_true, List.length_cons, List.map_cons,
        List.mem_cons] at hlen ⊢
      by_cases heq : i = (next prev).unixNano
      · exact Or.inl heq
      · exact Or.inr (ih (next prev) hloc (by omega) i hi (by omega) hhi)

/-! ## Facts about the hourly schedule and about `earliestTime` -/

theorem hourlySchedule_next_gt (x : Time) : x.unixNano < (hourlySchedule.next x).unixNano := by
  simp only [hourlySchedule, Hour, Second]
  omega

theorem hourlySchedule_isNextOccurrence (l : Location) :
    IsNextOccurrenceIn l hourlyOccurrence hourlySchedule.next := by
  intro x hx
  refine ⟨hx, ?_, hourlySchedule_next_gt x, ?_⟩
  · simp only [hourlySchedule, hourlyOccurrence, Hour, Second]
    omega
  · intro i hi hlt
    simp only [hourlySchedule, hourlyOccurrence, Hour, Second] at hi hlt ⊢
    omega

theorem parseHourlyOnly_hourly (created : Time) (deadline : Option Int) (last : Option Time) :
    parseHourlyOnly (hourlyRecord created deadline last).spec.schedule = .ok hourlySchedule := by
  simp [parseHourlyOnly, hourlyRecord]

theorem wrapInt64_ge_of_nonpos (x : Int) (hx : x ≤ 0) : x ≤ wrapInt64 x := by
  unfold wrapInt64
  omega

theorem earliestTime_loc (sj : TZCronJob) (now : Time) : (earliestTime sj now).loc = now.loc := by
  unfold earliestTime
  cases sj.status.lastScheduleTime <;> cases sj.spec.startingDeadlineSeconds <;>
    simp only [Time.In, Time.Location, Time.Add] <;> split <;> rfl

theorem earliestTime_ge_last (sj : TZCronJob) (now last : Time)
    (h : sj.status.lastScheduleTime = some last) :
    last.unixNano ≤ (earliestTime sj now).unixNano := by
  unfold earliestTime
  rw [h]
  cases sj.spec.startingDeadlineSeconds with
  | none => simp [Time.In]
  | some secs =>
    simp only [Time.In, Time.Location, Time.Add, Time.After]
    split
    · rename_i hlt
      simp only [decide_eq_true_eq] at hlt
      exact le_of_lt hlt
    · exact le_refl _

theorem earliestTime_ge_creation (sj : TZCronJob) (now : Time)
    (h : sj.status.lastScheduleTime = none) :
    sj.meta.creationTimestamp.unixNano ≤ (earliestTime sj now).unixNano := by
  unfold earliestTime
  rw [h]
  cases sj.spec.startingDeadlineSeconds with
  | none => simp [Time.In]
  | some secs =>
    simp only [Time.In, Time.Location, Time.Add, Time.After]
    split
    · rename_i hlt
      simp only [decide_eq_true_eq] at hlt
      exact le_of_lt hlt
    · exact le_refl _

theorem earliestTime_ge_deadline (sj : TZCronJob) (now : Time) (secs : Int)
    (h : sj.spec.startingDeadlineSeconds = some secs) (hsecs : 0 ≤ secs) :
    now.unixNano - secs * Second ≤ (earliestTime sj now).unixNano := by
  have hw : -Second * secs ≤ wrapInt64 (-Second * secs) :=
    wrapInt64_ge_of_nonpos _ (by simp only [Second]; omega)
  unfold earliestTime
  rw [h]
  simp only [Time.In, Time.Location, Time.Add, Time.After]
  split
  · simp only [Second] at hw ⊢
    omega
  · rename_i hnlt
    simp only [decide_eq_true_eq, not_lt] at hnlt
    simp only [Second] at hw hnlt ⊢
    omega

theorem hourlySchedule_next_of (t : Time) (m : Int) (h1 : m * Hour ≤ t.unixNano)
    (h2 : t.unixNano < m * Hour + Hour) :
    hourlySchedule.next t = { unixNano := m * Hour + Hour, loc := t.loc } := by
  simp only [hourlySchedule, Hour, Second, Time.mk.injEq, and_true] at *
  omega

/-! ## The schedule evaluator: theorems -/

/-- Claim C1. For a schedule that parses and whose next-occurrence operation
returns an instant strictly after its argument, the sequence returned by
`getRecentUnmetScheduleTimes` is strictly ascending, and each of its elements
is not after `now` and is obtained from the earliest time by applying the
next-occurrence operation one or more times. -/
theorem getRecentUnmetScheduleTimes_ascending_due_occurrences
    (parseStandard : String → Except String Schedule) (sj : TZCronJob) (now : Time)
    (sched : Schedule) (hparse : parseStandard sj.spec.schedule = .ok sched)
    (hnext : ∀ x : Time, x.unixNano < (sched.next x).unixNano) :
    StrictlyAscending (getRecentUnmetScheduleTimes parseStandard sj now).1 ∧
      ∀ t ∈ (getRecentUnmetScheduleTimes parseStandard sj now).1,
        t.unixNano ≤ now.unixNano ∧ ∃ k : Nat, t = sched.next^[k + 1] (earliestTime sj now) := by
  rw [getRecentUnmetScheduleTimes_eq parseStandard sj now sched hparse]
  obtain ⟨hasc, hmem⟩ := takeWhile_orbit_sound sched.next now (fun _ => True)
    (fun x _ => ⟨trivial, hnext x⟩) 101 (earliestTime sj now) trivial
  split
  · simp [StrictlyAscending]
  · split
    · simp [StrictlyAscending]
    · exact ⟨hasc, fun t ht => ⟨(hmem t ht).2.2.1, (hmem t ht).2.2.2.2⟩⟩

/-- Witness for C1: the hourly record created at the epoch, evaluated at 03:05. -/
theorem getRecentUnmetScheduleTimes_ascending_due_occurrences_witness :
    StrictlyAscending (getRecentUnmetScheduleTimes parseHourlyOnly
        (hourlyRecord ⟨0, ⟨"UTC"⟩⟩ none none) ⟨3 * Hour + 5 * Minute, ⟨"UTC"⟩⟩).1 ∧
      ∀ t ∈ (getRecentUnmetScheduleTimes parseHourlyOnly
          (hourlyRecord ⟨0, ⟨"UTC"⟩⟩ none none) ⟨3 * Hour + 5 * Minute, ⟨"UTC"⟩⟩).1,
        t.unixNano ≤ (⟨3 * Hour + 5 * Minute, ⟨"UTC"⟩⟩ : Time).unixNano ∧
          ∃ k : Nat, t = hourlySchedule.next^[k + 1]
            (earliestTime (hourlyRecord ⟨0, ⟨"UTC"⟩⟩ none none) ⟨3 * Hour + 5 * Minute, ⟨"UTC"⟩⟩) :=
  getRecentUnmetScheduleTimes_ascending_due_occurrences parseHourlyOnly
    (hourlyRecord ⟨0, ⟨"UTC"⟩⟩ none none) ⟨3 * Hour + 5 * Minute, ⟨"UTC"⟩⟩ hourlySchedule
    (parseHourlyOnly_hourly _ _ _) hourlySchedule_next_gt

theorem hourly_three_due_of_earliest (parseStandard : String → Except String Schedule)
    (sj : TZCronJob) (k : Int) (l : Location)
    (hparse : parseStandard "0 * * * *" = .ok hourlySchedule)
    (hsched : sj.spec.schedule = "0 * * * *")
    (he : earliestTime sj ⟨k * Hour + 3 * Hour + 5 * Minute, l⟩ = ⟨k * Hour, l⟩) :
    getRecentUnmetScheduleTimes parseStandard sj ⟨k * Hour + 3 * Hour + 5 * Minute, l⟩ =
      ([⟨k * Hour + Hour, l⟩, ⟨k * Hour + 2 * Hour, l⟩, ⟨k * Hour + 3 * Hour, l⟩], none) := by
  have h1 : hourlySchedule.next ⟨k * Hour, l⟩ = ⟨k * Hour + Hour, l⟩ :=
    hourlySchedule_next_of _ k (le_refl _) (by simp only [Hour, Second]; omega)
  have h2 : hourlySchedule.next ⟨k * Hour + Hour, l⟩ = ⟨k * Hour + 2 * Hour, l⟩ := by
    rw [hourlySchedule_next_of _ (k + 1) (by simp only [Hour, Second]; omega)
      (by simp only [Hour, Second]; omega)]
    simp only [Hour, Second, Time.mk.injEq, and_true]; omega
  have h3 : hourlySchedule.next ⟨k * Hour + 2 * Hour, l⟩ = ⟨k * Hour + 3 * Hour, l⟩ := by
    rw [hourlySchedule_next_of _ (k + 2) (by simp only [Hour, Second]; omega)
      (by simp only [Hour, Second]; omega)]
    simp only [Hour, Second, Time.mk.injEq, and_true]; omega
  have h4 : hourlySchedule.next ⟨k * Hour + 3 * Hour, l⟩ = ⟨k * Hour + 4 * Hour, l⟩ := by
    rw [hourlySchedule_next_of _ (k + 3) (by simp only [Hour, Second]; omega)
      (by simp only [Hour, Second]; omega)]
    simp only [Hour, Second, Time.mk.injEq, and_true]; omega
  unfold getRecentUnmetScheduleTimes
  rw [hsched, hparse]
  simp only [he]
  have hna : (⟨k * Hour, l⟩ : Time).After ⟨k * Hour + 3 * Hour + 5 * Minute, l⟩ = false := by
    simp only [Time.After, Hour, Minute, Second, decide_eq_false_iff_not]; omega
  rw [hna]
  simp only [Bool.false_eq_true, if_false]
  rw [h1, collectStarts_step _ _ _ _ (by
      simp only [Time.After, Hour, Minute, Second, decide_eq_false_iff_not]; omega) (by simp),
    h2, collectStarts_step _ _ _ _ (by
      simp only [Time.After, Hour, Minute, Second, decide_eq_false_iff_not]; omega) (by simp),
    h3, collectStarts_step _ _ _ _ (by
      simp only [Time.After, Hour, Minute, Second, decide_eq_false_iff_not]; omega) (by simp),
    h4, collectStarts_stop _ _ _ _ (by
      simp only [Time.After, Hour, Minute, Second, decide_eq_true_eq]; omega)]
  rfl

theorem hourly_no_deadline_three_due (parseStandard : String → Except String Schedule)
    (sj : TZCronJob) (k : Int) (l : Location)
    (hparse : parseStandard "0 * * * *" = .ok hourlySchedule)
    (hsched : sj.spec.schedule = "0 * * * *")
    (hlast : sj.status.lastScheduleTime = none)
    (hdeadline : sj.spec.startingDeadlineSeconds = none)
    (hcreated : sj.meta.creationTimestamp.unixNano = k * Hour) :
    getRecentUnmetScheduleTimes parseStandard sj ⟨k * Hour + 3 * Hour + 5 * Minute, l⟩ =
      ([⟨k * Hour + Hour, l⟩, ⟨k * Hour + 2 * Hour, l⟩, ⟨k * Hour + 3 * Hour, l⟩], none) :=
  hourly_three_due_of_earliest parseStandard sj k l hparse hsched (by
    simp only [earliestTime, hlast, hdeadline, Time.In, Time.Location, hcreated])

/-- Claim C2. For a schedule that parses, with occurrences `occ` and `next` its
next-occurrence operation in the location of `now`: when
`getRecentUnmetScheduleTimes` returns no error, its result is strictly
ascending, lies in the location of `now`, and its instants are exactly the
occurrences after the earliest time and not after `now` (one exactly at `now`
included).  For the hourly schedule, a record created on the hour `T0` with no
last schedule time and no deadline, and `now = T0 + 3h05m`, the result is
exactly `T0+1h, T0+2h, T0+3h`, without error. -/
theorem getRecentUnmetScheduleTimes_exactly_occurrences_between
    (parseStandard : String → Except String Schedule) (sj : TZCronJob) (now : Time)
    (sched : Schedule) (occ : Int → Prop)
    (hparse : parseStandard sj.spec.schedule = .ok sched)
    (hocc : IsNextOccurrenceIn now.loc occ sched.next) :
    ((getRecentUnmetScheduleTimes parseStandard sj now).2 = none →
      StrictlyAscending (getRecentUnmetScheduleTimes parseStandard sj now).1 ∧
      (∀ t ∈ (getRecentUnmetScheduleTimes parseStandard sj now).1, t.loc = now.loc) ∧
      {i | i ∈ (getRecentUnmetScheduleTimes parseStandard sj now).1.map Time.unixNano} =
        occurrencesBetween occ (earliestTime sj now).unixNano now.unixNano) ∧
    (occ now.unixNano → (earliestTime sj now).unixNano < now.unixNano →
      (getRecentUnmetScheduleTimes parseStandard sj now).2 = none →
      now.unixNano ∈ (getRecentUnmetScheduleTimes parseStandard sj now).1.map Time.unixNano) ∧
    ∀ (parse : String → Except String Schedule) (rec : TZCronJob) (k : Int) (l : Location),
      parse "0 * * * *" = .ok hourlySchedule →
      rec.spec.schedule = "0 * * * *" →
      rec.status.lastScheduleTime = none →
      rec.spec.startingDeadlineSeconds = none →
      rec.meta.creationTimestamp.unixNano = k * Hour →
      getRecentUnmetScheduleTimes parse rec ⟨k * Hour + 3 * Hour + 5 * Minute, l⟩ =
        ([⟨k * Hour + Hour, l⟩, ⟨k * Hour + 2 * Hour, l⟩, ⟨k * Hour + 3 * Hour, l⟩], none) := by
  have hmain : (getRecentUnmetScheduleTimes parseStandard sj now).2 = none →
      StrictlyAscending (getRecentUnmetScheduleTimes parseStandard sj now).1 ∧
      (∀ t ∈ (getRecentUnmetScheduleTimes parseStandard sj now).1, t.loc = now.loc) ∧
      {i | i ∈ (getRecentUnmetScheduleTimes parseStandard sj now).1.map Time.unixNano} =
        occurrencesBetween occ (earliestTime sj now).unixNano now.unixNano := by
    rw [getRecentUnmetScheduleTimes_eq parseStandard sj now sched hparse]
    obtain ⟨hasc, hmem⟩ := takeWhile_orbit_sound sched.next now (fun x => x.loc = now.loc)
      (fun x hx => ⟨(hocc x hx).1, (hocc x hx).2.2.1⟩) 101 (earliestTime sj now)
      (earliestTime_loc sj now)
    have hcomplete := takeWhile_orbit_complete sched.next now now.loc occ hocc 101
      (earliestTime sj now) (earliestTime_loc sj now)
    split
    · rename_i hafter
      intro _
      refine ⟨by simp [StrictlyAscending], by simp, ?_⟩
      simp only [Time.After, decide_eq_true_eq] at hafter
      ext i
      simp only [List.map_nil, List.not_mem_nil, Set.mem_setOf_eq, occurrencesBetween, false_iff]
      omega
    · split
      · intro herr
        simp at herr
      · rename_i hlen
        intro _
        refine ⟨hasc, fun t ht => (hmem t ht).1, ?_⟩
        ext i
        simp only [Set.mem_setOf_eq, occurrencesBetween]
        constructor
        · intro hi
          obtain ⟨t, ht, rfl⟩ := List.mem_map.mp hi
          obtain ⟨_, hgt, hle, ⟨y, hy, rfl⟩, _⟩ := hmem t ht
          exact ⟨(hocc y hy).2.1, hgt, hle⟩
        · rintro ⟨hi, hlo, hhi⟩
          exact hcomplete (by omega) i hi hlo hhi
  refine ⟨hmain, ?_, ?_⟩
  · intro hnow hlt herr
    have hset := (hmain herr).2.2
    have : now.unixNano ∈ occurrencesBetween occ (earliestTime sj now).unixNano now.unixNano :=
      ⟨hnow, hlt, le_refl _⟩
    rw [← hset] at this
    exact this
  · intro parse rec k l h1 h2 h3 h4 h5
    exact hourly_no_deadline_three_due parse rec k l h1 h2 h3 h4 h5

/-- Witness for C2: the hourly record created at the epoch, evaluated at 03:05. -/
theorem getRecentUnmetScheduleTimes_exactly_occurrences_between_witness :
    StrictlyAscending (getRecentUnmetScheduleTimes parseHourlyOnly
        (hourlyRecord ⟨0 * Hour, ⟨"UTC"⟩⟩ none none)
        ⟨0 * Hour + 3 * Hour + 5 * Minute, ⟨"UTC"⟩⟩).1 ∧
      {i | i ∈ (getRecentUnmetScheduleTimes parseHourlyOnly
          (hourlyRecord ⟨0 * Hour, ⟨"UTC"⟩⟩ none none)
          ⟨0 * Hour + 3 * Hour + 5 * Minute, ⟨"UTC"⟩⟩).1.map Time.unixNano} =
        occurrencesBetween hourlyOccurrence
          (earliestTime (hourlyRecord ⟨0 * Hour, ⟨"UTC"⟩⟩ none none)
            ⟨0 * Hour + 3 * Hour + 5 * Minute, ⟨"UTC"⟩⟩).unixNano
          (0 * Hour + 3 * Hour + 5 * Minute) ∧
      getRecentUnmetScheduleTimes parseHourlyOnly (hourlyRecord ⟨0 * Hour, ⟨"UTC"⟩⟩ none none)
          ⟨0 * Hour + 3 * Hour + 5 * Minute, ⟨"UTC"⟩⟩ =
        ([⟨0 * Hour + Hour, ⟨"UTC"⟩⟩, ⟨0 * Hour + 2 * Hour, ⟨"UTC"⟩⟩,
          ⟨0 * Hour + 3 * Hour, ⟨"UTC"⟩⟩], none) := by
  have h := getRecentUnmetScheduleTimes_exactly_occurrences_between parseHourlyOnly
    (hourlyRecord ⟨0 * Hour, ⟨"UTC"⟩⟩ none none) ⟨0 * Hour + 3 * Hour + 5 * Minute, ⟨"UTC"⟩⟩
    hourlySchedule hourlyOccurrence (parseHourlyOnly_hourly _ _ _)
    (hourlySchedule_isNextOccurrence _)
  have hres := h.2.2 parseHourlyOnly (hourlyRecord ⟨0 * Hour, ⟨"UTC"⟩⟩ none none) 0 ⟨"UTC"⟩
    rfl rfl rfl rfl rfl
  have hgen := h.1 (by rw [hres])
  exact ⟨hgen.1, hgen.2.2, hres⟩

theorem orbit_length (next : Time → Time) : ∀ (n : Nat) (t : Time), (orbit next n t).length = n := by
  intro n
  induction n with
  | zero => intro t; rfl
  | succ n ih => intro t; simp [orbit, ih]

theorem occurrencesBetween_finite (occ : Int → Prop) (lo hi : Int) :
    (occurrencesBetween occ lo hi).Finite :=
  (Set.finite_Ioc lo hi).subset (fun _ hi => ⟨hi.2.1, hi.2.2⟩)

theorem length_le_ncard_occurrencesBetween (occ : Int → Prop) (lo hi : Int) (xs : List Time)
    (hasc : StrictlyAscending xs)
    (hmem : ∀ x ∈ xs, occ x.unixNano ∧ lo < x.unixNano ∧ x.unixNano ≤ hi) :
    xs.length ≤ (occurrencesBetween occ lo hi).ncard := by
  have hnodup : (xs.map Time.unixNano).Nodup := by
    unfold List.Nodup
    rw [List.pairwise_map]
    exact List.Pairwise.imp (fun h => ne_of_lt h) hasc
  have hsub : (↑(xs.map Time.unixNano).toFinset : Set Int) ⊆ occurrencesBetween occ lo hi := by
    intro i hi
    simp only [Finset.mem_coe, List.mem_toFinset, List.mem_map] at hi
    obtain ⟨x, hx, rfl⟩ := hi
    exact hmem x hx
  have hle := Set.ncard_le_ncard hsub (occurrencesBetween_finite occ lo hi)
  rw [Set.ncard_coe_Finset, List.toFinset_card_of_nodup hnodup, List.length_map] at hle
  exact hle

theorem length_eq_ncard_occurrencesBetween (occ : Int → Prop) (lo hi : Int) (xs : List Time)
    (hasc : StrictlyAscending xs)
    (hset : {i | i ∈ xs.map Time.unixNano} = occurrencesBetween occ lo hi) :
    xs.length = (occurrencesBetween occ lo hi).ncard := by
  have hnodup : (xs.map Time.unixNano).Nodup := by
    unfold List.Nodup
    rw [List.pairwise_map]
    exact List.Pairwise.imp (fun h => ne_of_lt h) hasc
  have hcoe : (↑(xs.map Time.unixNano).toFinset : Set Int) = occurrencesBetween occ lo hi := by
    rw [← hset]
    ext i
    simp
  rw [← hcoe, Set.ncard_coe_Finset, List.toFinset_card_of_nodup hnodup, List.length_map]

theorem hourly_orbit_lt (n : Nat) : ∀ (t : Time) (m : Int), t.unixNano = m * Hour →
    ∀ x ∈ orbit hourlySchedule.next n t, x.unixNano < m * Hour + n * Hour := by
  induction n with
  | zero => intro t m _ x hx; simp [orbit] at hx
  | succ n ih =>
    intro t m ht x hx
    have horb : orbit hourlySchedule.next (n + 1) t = t :: orbit hourlySchedule.next n
      (hourlySchedule.next t) := rfl
    rw [horb] at hx
    rcases List.mem_cons.mp hx with rfl | hx
    · rw [ht]
      simp only [Hour, Second]
      push_cast
      omega
    · have hnext : (hourlySchedule.next t).unixNano = (m + 1) * Hour := by
        rw [hourlySchedule_next_of t m (by omega) (by rw [ht]; simp only [Hour, Second]; omega)]
        simp only [Hour, Second]
        omega
      have := ih (hourlySchedule.next t) (m + 1) hnext x hx
      simp only [Hour, Second] at this ⊢
      push_cast
      omega

theorem hourly_backlog_too_many (parseStandard : String → Except String Schedule)
    (sj : TZCronJob) (k : Int) (l : Location) (d : Int)
    (hparse : parseStandard "0 * * * *" = .ok hourlySchedule)
    (hsched : sj.spec.schedule = "0 * * * *")
    (hlast : sj.status.lastScheduleTime = none)
    (hdeadline : sj.spec.startingDeadlineSeconds = none)
    (hcreated : sj.meta.creationTimestamp.unixNano = k * Hour) (hd : 0 ≤ d) :
    getRecentUnmetScheduleTimes parseStandard sj ⟨k * Hour + 200 * Hour + d, l⟩ =
      ([], some tooManyMissedStartTimes) := by
  have he : earliestTime sj ⟨k * Hour + 200 * Hour + d, l⟩ = ⟨k * Hour, l⟩ := by
    simp only [earliestTime, hlast, hdeadline, Time.In, Time.Location, hcreated]
  have hna : (⟨k * Hour, l⟩ : Time).After ⟨k * Hour + 200 * Hour + d, l⟩ = false := by
    simp only [Time.After, Hour, Second, decide_eq_false_iff_not]; omega
  have h1 : hourlySchedule.next ⟨k * Hour, l⟩ = ⟨k * Hour + Hour, l⟩ :=
    hourlySchedule_next_of _ k (le_refl _) (by simp only [Hour, Second]; omega)
  have hall : (orbit hourlySchedule.next 101 (⟨k * Hour + Hour, l⟩ : Time)).takeWhile
      (fun x => !x.After ⟨k * Hour + 200 * Hour + d, l⟩) =
      orbit hourlySchedule.next 101 (⟨k * Hour + Hour, l⟩ : Time) := by
    rw [List.takeWhile_eq_self_iff]
    intro x hx
    have := hourly_orbit_lt 101 ⟨k * Hour + Hour, l⟩ (k + 1)
      (by simp only [Hour, Second]; omega) x hx
    simp only [Time.After, Bool.not_eq_true', decide_eq_false_iff_not, not_lt]
    simp only [Hour, Second] at this ⊢
    push_cast at this
    omega
  rw [getRecentUnmetScheduleTimes_eq parseStandard sj _ hourlySchedule (by rw [hsched, hparse]),
    he, hna, h1, hall, orbit_length]
  simp

theorem takeWhile_orbit_occurrences (next : Time → Time) (now : Time) (l : Location)
    (occ : Int → Prop) (hocc : IsNextOccurrenceIn l occ next) (n : Nat) (prev : Time)
    (hprev : prev.loc = l)
    (hlen : ((orbit next n (next prev)).takeWhile (fun x => !x.After now)).length < n) :
    {i | i ∈ ((orbit next n (next prev)).takeWhile (fun x => !x.After now)).map Time.unixNano} =
      occurrencesBetween occ prev.unixNano now.unixNano := by
  obtain ⟨_, hmem⟩ := takeWhile_orbit_sound next now (fun x => x.loc = l)
    (fun x hx => ⟨(hocc x hx).1, (hocc x hx).2.2.1⟩) n prev hprev
  ext i
  simp only [Set.mem_setOf_eq, occurrencesBetween]
  constructor
  · intro hi
    obtain ⟨t, ht, rfl⟩ := List.mem_map.mp hi
    obtain ⟨_, hgt, hle, ⟨y, hy, rfl⟩, _⟩ := hmem t ht
    exact ⟨(hocc y hy).2.1, hgt, hle⟩
  · rintro ⟨hi, hlo, hhi⟩
    exact takeWhile_orbit_complete next now l occ hocc n prev hprev hlen i hi hlo hhi

/-- Claim C3, amended. For a schedule that parses and whose `next` is a true
next-occurrence operation (in the location of `now` it returns the least
occurrence of `occ` strictly after its argument), and an earliest time not
after `now`: `getRecentUnmetScheduleTimes` returns the error "too many missed
start time" exactly when more than 100 occurrences lie after the earliest time
and not after `now`; with that error the returned sequence is empty; without
error the sequence is strictly ascending and its instants are exactly those
occurrences, as many as there are, so with exactly 100 of them all 100 are
returned without error; and for the hourly schedule with 200 or more missed
runs the result is the empty sequence and the error. -/
theorem getRecentUnmetScheduleTimes_too_many_iff
    (parseStandard : String → Except String Schedule) (sj : TZCronJob) (now : Time)
    (sched : Schedule) (occ : Int → Prop)
    (hparse : parseStandard sj.spec.schedule = .ok sched)
    (hocc : IsNextOccurrenceIn now.loc occ sched.next)
    (hearly : (earliestTime sj now).After now = false) :
    ((getRecentUnmetScheduleTimes parseStandard sj now).2 = some tooManyMissedStartTimes ↔
      100 < (occurrencesBetween occ (earliestTime sj now).unixNano now.unixNano).ncard) ∧
    ((getRecentUnmetScheduleTimes parseStandard sj now).2 = some tooManyMissedStartTimes →
      (getRecentUnmetScheduleTimes parseStandard sj now).1 = []) ∧
    ((getRecentUnmetScheduleTimes parseStandard sj now).2 = none →
      (getRecentUnmetScheduleTimes parseStandard sj now).1.length =
        (occurrencesBetween occ (earliestTime sj now).unixNano now.unixNano).ncard ∧
      StrictlyAscending (getRecentUnmetScheduleTimes parseStandard sj now).1 ∧
      {i | i ∈ (getRecentUnmetScheduleTimes parseStandard sj now).1.map Time.unixNano} =
        occurrencesBetween occ (earliestTime sj now).unixNano now.unixNano) ∧
    ((occurrencesBetween occ (earliestTime sj now).unixNano now.unixNano).ncard = 100 →
      (getRecentUnmetScheduleTimes parseStandard sj now).2 = none ∧
      (getRecentUnmetScheduleTimes parseStandard sj now).1.length = 100 ∧
      StrictlyAscending (getRecentUnmetScheduleTimes parseStandard sj now).1 ∧
      {i | i ∈ (getRecentUnmetScheduleTimes parseStandard sj now).1.map Time.unixNano} =
        occurrencesBetween occ (earliestTime sj now).unixNano now.unixNano) ∧
    ∀ (parse : String → Except String Schedule) (rec : TZCronJob) (k : Int) (l : Location)
      (d : Int),
      parse "0 * * * *" = .ok hourlySchedule →
      rec.spec.schedule = "0 * * * *" →
      rec.status.lastScheduleTime = none →
      rec.spec.startingDeadlineSeconds = none →
      rec.meta.creationTimestamp.unixNano = k * Hour →
      0 ≤ d →
      getRecentUnmetScheduleTimes parse rec ⟨k * Hour + 200 * Hour + d, l⟩ =
        ([], some tooManyMissedStartTimes) := by
  obtain ⟨hasc, hmem⟩ := takeWhile_orbit_sound sched.next now (fun x => x.loc = now.loc)
    (fun x hx => ⟨(hocc x hx).1, (hocc x hx).2.2.1⟩) 101 (earliestTime sj now)
    (earliestTime_loc sj now)
  have hge := length_le_ncard_occurrencesBetween occ (earliestTime sj now).unixNano now.unixNano
    _ hasc (fun x hx => by
      obtain ⟨_, hgt, hle, ⟨y, hy, rfl⟩, _⟩ := hmem x hx
      exact ⟨(hocc y hy).2.1, hgt, hle⟩)
  have hcases : (100 < ((orbit sched.next 101 (sched.next (earliestTime sj now))).takeWhile
        (fun x => !x.After now)).length ∧
      getRecentUnmetScheduleTimes parseStandard sj now = ([], some tooManyMissedStartTimes) ∧
      100 < (occurrencesBetween occ (earliestTime sj now).unixNano now.unixNano).ncard) ∨
      ((getRecentUnmetScheduleTimes parseStandard sj now).2 = none ∧
      (getRecentUnmetScheduleTimes parseStandard sj now).1.length =
        (occurrencesBetween occ (earliestTime sj now).unixNano now.unixNano).ncard ∧
      (occurrencesBetween occ (earliestTime sj now).unixNano now.unixNano).ncard ≤ 100 ∧
      StrictlyAscending (getRecentUnmetScheduleTimes parseStandard sj now).1 ∧
      {i | i ∈ (getRecentUnmetScheduleTimes parseStandard sj now).1.map Time.unixNano} =
        occurrencesBetween occ (earliestTime sj now).unixNano now.unixNano) := by
    rw [getRecentUnmetScheduleTimes_eq parseStandard sj now sched hparse, hearly]
    simp only [Bool.false_eq_true, if_false]
    by_cases hlen : 100 < ((orbit sched.next 101 (sched.next (earliestTime sj now))).takeWhile
        (fun x => !x.After now)).length
    · left
      rw [if_pos hlen]
      exact ⟨hlen, rfl, lt_of_lt_of_le hlen hge⟩
    · right
      rw [if_neg hlen]
      have hset := takeWhile_orbit_occurrences sched.next now now.loc occ hocc 101
        (earliestTime sj now) (earliestTime_loc sj now) (by omega)
      have heq := length_eq_ncard_occurrencesBetween occ (earliestTime sj now).unixNano
        now.unixNano _ hasc hset
      exact ⟨rfl, heq, by rw [← heq]; omega, hasc, hset⟩
  refine ⟨?_, ?_, ?_, ?_, ?_⟩
  · rcases hcases with ⟨_, hres, hcard⟩ | ⟨hnone, _, hcard, _, _⟩
    · rw [hres]
      exact ⟨fun _ => hcard, fun _ => rfl⟩
    · rw [hnone]
      exact ⟨fun h => by simp at h, fun h => by omega⟩
  · rcases hcases with ⟨_, hres, _⟩ | ⟨hnone, _, _⟩
    · rw [hres]
      exact fun _ => rfl
    · rw [hnone]
      exact fun h => by simp at h
  · rcases hcases with ⟨_, hres, _⟩ | ⟨_, hlen, _, hascr, hsetr⟩
    · rw [hres]
      exact fun h => by simp at h
    · exact fun _ => ⟨hlen, hascr, hsetr⟩
  · intro hcard
    rcases hcases with ⟨_, _, hgt⟩ | ⟨hnone, hlen, _, hascr, hsetr⟩
    · omega
    · exact ⟨hnone, by rw [hlen, hcard], hascr, hsetr⟩
  · intro parse rec k l d h1 h2 h3 h4 h5 h6
    exact hourly_backlog_too_many parse rec k l d h1 h2 h3 h4 h5 h6

/-- Witness for C3, amended: the hourly record created at the epoch, evaluated 200 hours
later: more than 100 full hours lie in between, and the result is the empty
sequence with the error. -/
theorem getRecentUnmetScheduleTimes_too_many_iff_witness :
    100 < (occurrencesBetween hourlyOccurrence
        (earliestTime (hourlyRecord ⟨0 * Hour, ⟨"UTC"⟩⟩ none none)
          ⟨0 * Hour + 200 * Hour + 0, ⟨"UTC"⟩⟩).unixNano (0 * Hour + 200 * Hour + 0)).ncard ∧
      getRecentUnmetScheduleTimes parseHourlyOnly (hourlyRecord ⟨0 * Hour, ⟨"UTC"⟩⟩ none none)
          ⟨0 * Hour + 200 * Hour + 0, ⟨"UTC"⟩⟩ = ([], some tooManyMissedStartTimes) := by
  have h := getRecentUnmetScheduleTimes_too_many_iff parseHourlyOnly
    (hourlyRecord ⟨0 * Hour, ⟨"UTC"⟩⟩ none none) ⟨0 * Hour + 200 * Hour + 0, ⟨"UTC"⟩⟩
    hourlySchedule hourlyOccurrence (parseHourlyOnly_hourly _ _ _)
    (hourlySchedule_isNextOccurrence _) (by
      simp only [earliestTime, hourlyRecord, Time.In, Time.Location, Time.After, Hour, Second]
      decide)
  have hres := h.2.2.2.2 parseHourlyOnly (hourlyRecord ⟨0 * Hour, ⟨"UTC"⟩⟩ none none) 0 ⟨"UTC"⟩ 0
    rfl rfl rfl rfl rfl (le_refl _)
  exact ⟨h.1.mp (by rw [hres]), hres⟩

theorem getRecentUnmetScheduleTimes_mem_gt_earliest
    (parseStandard : String → Except String Schedule) (sj : TZCronJob) (now : Time)
    (sched : Schedule) (hparse : parseStandard sj.spec.schedule = .ok sched)
    (hnext : ∀ x : Time, x.unixNano < (sched.next x).unixNano) :
    ∀ t ∈ (getRecentUnmetScheduleTimes parseStandard sj now).1,
      (earliestTime sj now).unixNano < t.unixNano := by
  rw [getRecentUnmetScheduleTimes_eq parseStandard sj now sched hparse]
  obtain ⟨_, hmem⟩ := takeWhile_orbit_sound sched.next now (fun _ => True)
    (fun x _ => ⟨trivial, hnext x⟩) 101 (earliestTime sj now) trivial
  split
  · simp
  · split
    · simp
    · exact fun t ht => (hmem t ht).2.1

theorem wrapInt64_half_hour : wrapInt64 (-Second * 1800) = -(30 * Minute) := by
  unfold wrapInt64 Second Minute Second
  norm_num

theorem hourly_half_hour_deadline_one_due (parseStandard : String → Except String Schedule)
    (sj : TZCronJob) (k : Int) (l : Location)
    (hparse : parseStandard "0 * * * *" = .ok hourlySchedule)
    (hsched : sj.spec.schedule = "0 * * * *")
    (hlast : sj.status.lastScheduleTime = none)
    (hdeadline : sj.spec.startingDeadlineSeconds = some 1800)
    (hcreated : sj.meta.creationTimestamp.unixNano = k * Hour) :
    getRecentUnmetScheduleTimes parseStandard sj ⟨k * Hour + 3 * Hour + 5 * Minute, l⟩ =
      ([⟨k * Hour + 3 * Hour, l⟩], none) := by
  have he : earliestTime sj ⟨k * Hour + 3 * Hour + 5 * Minute, l⟩ =
      ⟨k * Hour + 2 * Hour + 35 * Minute, l⟩ := by
    have hafter : decide (k * Hour < k * Hour + 3 * Hour + 5 * Minute + -(30 * Minute)) = true := by
      simp only [Hour, Minute, Second, decide_eq_true_eq]; omega
    simp only [earliestTime, hlast, hdeadline, Time.In, Time.Location, Time.Add, Time.After,
      hcreated, wrapInt64_half_hour, hafter, if_true, Time.mk.injEq, and_true]
    simp only [Hour, Minute, Second]; omega
  have h3 : hourlySchedule.next ⟨k * Hour + 2 * Hour + 35 * Minute, l⟩ =
      ⟨k * Hour + 3 * Hour, l⟩ := by
    rw [hourlySchedule_next_of _ (k + 2) (by simp only [Hour, Minute, Second]; omega)
      (by simp only [Hour, Minute, Second]; omega)]
    simp only [Hour, Second, Time.mk.injEq, and_true]; omega
  have h4 : hourlySchedule.next ⟨k * Hour + 3 * Hour, l⟩ = ⟨k * Hour + 4 * Hour, l⟩ := by
    rw [hourlySchedule_next_of _ (k + 3) (by simp only [Hour, Second]; omega)
      (by simp only [Hour, Second]; omega)]
    simp only [Hour, Second, Time.mk.injEq, and_true]; omega
  unfold getRecentUnmetScheduleTimes
  rw [hsched, hparse]
  simp only [he]
  have hna : (⟨k * Hour + 2 * Hour + 35 * Minute, l⟩ : Time).After
      ⟨k * Hour + 3 * Hour + 5 * Minute, l⟩ = false := by
    simp only [Time.After, Hour, Minute, Second, decide_eq_false_iff_not]; omega
  rw [hna]
  simp only [Bool.false_eq_true, if_false]
  rw [h3, collectStarts_step _ _ _ _ (by
      simp only [Time.After, Hour, Minute, Second, decide_eq_false_iff_not]; omega) (by simp),
    h4, collectStarts_stop _ _ _ _ (by
      simp only [Time.After, Hour, Minute, Second, decide_eq_true_eq]; omega)]
  rfl

/-- Claim C4. For a schedule that parses and whose next-occurrence operation
strictly advances, and a record whose `startingDeadlineSeconds` is set (to a
non-negative number of seconds, as the data model has it): every run time
returned by `getRecentUnmetScheduleTimes` is strictly after the deadline
boundary `now - startingDeadlineSeconds`, whatever the watermark.  For the
hourly schedule, a record created on the hour `T0` with no last schedule time
and a deadline of 1800 seconds, and `now = T0 + 3h05m`, the result is exactly
`T0+3h`, without error. -/
theorem getRecentUnmetScheduleTimes_after_deadline_boundary
    (parseStandard : String → Except String Schedule) (sj : TZCronJob) (now : Time)
    (sched : Schedule) (secs : Int)
    (hparse : parseStandard sj.spec.schedule = .ok sched)
    (hnext : ∀ x : Time, x.unixNano < (sched.next x).unixNano)
    (hdeadline : sj.spec.startingDeadlineSeconds = some secs) (hsecs : 0 ≤ secs) :
    (∀ t ∈ (getRecentUnmetScheduleTimes parseStandard sj now).1,
      now.unixNano - secs * Second < t.unixNano) ∧
    ∀ (parse : String → Except String Schedule) (rec : TZCronJob) (k : Int) (l : Location),
      parse "0 * * * *" = .ok hourlySchedule →
      rec.spec.schedule = "0 * * * *" →
      rec.status.lastScheduleTime = none →
      rec.spec.startingDeadlineSeconds = some 1800 →
      rec.meta.creationTimestamp.unixNano = k * Hour →
      getRecentUnmetScheduleTimes parse rec ⟨k * Hour + 3 * Hour + 5 * Minute, l⟩ =
        ([⟨k * Hour + 3 * Hour, l⟩], none) := by
  refine ⟨fun t ht => ?_, ?_⟩
  · have h1 := getRecentUnmetScheduleTimes_mem_gt_earliest parseStandard sj now sched hparse
      hnext t ht
    have h2 := earliestTime_ge_deadline sj now secs hdeadline hsecs
    omega
  · intro parse rec k l h1 h2 h3 h4 h5
    exact hourly_half_hour_deadline_one_due parse rec k l h1 h2 h3 h4 h5

/-- Witness for C4: the hourly record created at the epoch with a deadline of
half an hour, evaluated at 03:05: only 03:00 is due, and it is after 02:35. -/
theorem getRecentUnmetScheduleTimes_after_deadline_boundary_witness :
    (∀ t ∈ (getRecentUnmetScheduleTimes parseHourlyOnly
        (hourlyRecord ⟨0 * Hour, ⟨"UTC"⟩⟩ (some 1800) none)
        ⟨0 * Hour + 3 * Hour + 5 * Minute, ⟨"UTC"⟩⟩).1,
      (⟨0 * Hour + 3 * Hour + 5 * Minute, ⟨"UTC"⟩⟩ : Time).unixNano - 1800 * Second
        < t.unixNano) ∧
    getRecentUnmetScheduleTimes parseHourlyOnly (hourlyRecord ⟨0 * Hour, ⟨"UTC"⟩⟩ (some 1800) none)
        ⟨0 * Hour + 3 * Hour + 5 * Minute, ⟨"UTC"⟩⟩ = ([⟨0 * Hour + 3 * Hour, ⟨"UTC"⟩⟩], none) := by
  have h := getRecentUnmetScheduleTimes_after_deadline_boundary parseHourlyOnly
    (hourlyRecord ⟨0 * Hour, ⟨"UTC"⟩⟩ (some 1800) none)
    ⟨0 * Hour + 3 * Hour + 5 * Minute, ⟨"UTC"⟩⟩ hourlySchedule 1800
    (parseHourlyOnly_hourly _ _ _) hourlySchedule_next_gt rfl (by decide)
  exact ⟨h.1, h.2 parseHourlyOnly (hourlyRecord ⟨0 * Hour, ⟨"UTC"⟩⟩ (some 1800) none) 0 ⟨"UTC"⟩
    rfl rfl rfl rfl rfl⟩

/-- Claim C5. For a schedule that parses and whose next-occurrence operation
strictly advances, every run time returned by `getRecentUnmetScheduleTimes` is
strictly later than the record's `lastScheduleTime` when that is set, and
strictly later than the record's creation timestamp when it is not. -/
theorem getRecentUnmetScheduleTimes_after_last_known_start
    (parseStandard : String → Except String Schedule) (sj : TZCronJob) (now : Time)
    (sched : Schedule) (hparse : parseStandard sj.spec.schedule = .ok sched)
    (hnext : ∀ x : Time, x.unixNano < (sched.next x).unixNano) :
    ∀ t ∈ (getRecentUnmetScheduleTimes parseStandard sj now).1,
      (∀ last : Time, sj.status.lastScheduleTime = some last → last.unixNano < t.unixNano) ∧
      (sj.status.lastScheduleTime = none → sj.meta.creationTimestamp.unixNano < t.unixNano) := by
  intro t ht
  have h1 := getRecentUnmetScheduleTimes_mem_gt_earliest parseStandard sj now sched hparse
    hnext t ht
  refine ⟨fun last hlast => ?_, fun hnone => ?_⟩
  · have h2 := earliestTime_ge_last sj now last hlast
    omega
  · have h2 := earliestTime_ge_creation sj now hnone
    omega

/-- Witness for C5: the hourly record created five hours before the epoch and
last scheduled at the epoch, evaluated at 03:05: 01:00 is returned, and it is
later than the last schedule time. -/
theorem getRecentUnmetScheduleTimes_after_last_known_start_witness :
    (⟨0 * Hour + Hour, ⟨"UTC"⟩⟩ : Time) ∈ (getRecentUnmetScheduleTimes parseHourlyOnly
        (hourlyRecord ⟨-5 * Hour, ⟨"UTC"⟩⟩ none (some ⟨0 * Hour, ⟨"UTC"⟩⟩))
        ⟨0 * Hour + 3 * Hour + 5 * Minute, ⟨"UTC"⟩⟩).1 ∧
      (⟨0 * Hour, ⟨"UTC"⟩⟩ : Time).unixNano < (⟨0 * Hour + Hour, ⟨"UTC"⟩⟩ : Time).unixNano := by
  have hres := hourly_three_due_of_earliest parseHourlyOnly
    (hourlyRecord ⟨-5 * Hour, ⟨"UTC"⟩⟩ none (some ⟨0 * Hour, ⟨"UTC"⟩⟩)) 0 ⟨"UTC"⟩ rfl rfl rfl
  have hmem : (⟨0 * Hour + Hour, ⟨"UTC"⟩⟩ : Time) ∈ (getRecentUnmetScheduleTimes parseHourlyOnly
      (hourlyRecord ⟨-5 * Hour, ⟨"UTC"⟩⟩ none (some ⟨0 * Hour, ⟨"UTC"⟩⟩))
      ⟨0 * Hour + 3 * Hour + 5 * Minute, ⟨"UTC"⟩⟩).1 := by
    rw [hres]
    exact List.mem_cons_self _ _
  exact ⟨hmem, (getRecentUnmetScheduleTimes_after_last_known_start parseHourlyOnly
    (hourlyRecord ⟨-5 * Hour, ⟨"UTC"⟩⟩ none (some ⟨0 * Hour, ⟨"UTC"⟩⟩))
    ⟨0 * Hour + 3 * Hour + 5 * Minute, ⟨"UTC"⟩⟩ hourlySchedule (parseHourlyOnly_hourly _ _ _)
    hourlySchedule_next_gt _ hmem).1 ⟨0 * Hour, ⟨"UTC"⟩⟩ rfl⟩

/-- Claim C6, amended. For a schedule that parses and a record whose
`lastScheduleTime` is set to an instant equal to or later than `now`, provided
that `lastScheduleTime` is strictly later than `now` or that the schedule's
next-occurrence operation returns an instant strictly after its argument:
`getRecentUnmetScheduleTimes` returns the empty sequence and no error, whatever
`startingDeadlineSeconds` is. -/
theorem getRecentUnmetScheduleTimes_empty_of_last_not_before_now
    (parseStandard : String → Except String Schedule) (sj : TZCronJob) (now : Time)
    (sched : Schedule) (last : Time)
    (hparse : parseStandard sj.spec.schedule = .ok sched)
    (hlast : sj.status.lastScheduleTime = some last)
    (hge : now.unixNano ≤ last.unixNano)
    (hadvance : now.unixNano < last.unixNano ∨
      ∀ x : Time, x.unixNano < (sched.next x).unixNano) :
    getRecentUnmetScheduleTimes parseStandard sj now = ([], none) := by
  rw [getRecentUnmetScheduleTimes_eq parseStandard sj now sched hparse]
  have h1 := earliestTime_ge_last sj now last hlast
  by_cases hearly : (earliestTime sj now).After now = true
  · rw [if_pos hearly]
  rw [if_neg hearly]
  simp only [Time.After, decide_eq_true_eq, not_lt] at hearly
  have h2 : (earliestTime sj now).unixNano < (sched.next (earliestTime sj now)).unixNano := by
    rcases hadvance with hstrict | hnext
    · omega
    · exact hnext (earliestTime sj now)
  have hafter : (sched.next (earliestTime sj now)).After now = true := by
    simp only [Time.After, decide_eq_true_eq]; omega
  have horb : orbit sched.next 101 (sched.next (earliestTime sj now)) =
      sched.next (earliestTime sj now) ::
        orbit sched.next 100 (sched.next (sched.next (earliestTime sj now))) := rfl
  rw [horb, List.takeWhile_cons]
  simp [hafter]

/-- Witness for C6, amended: the hourly record last scheduled at 03:00 with a
deadline of half an hour, evaluated at 03:00 sharp; and the record with the
schedule that never occurs, last scheduled at 05:00, evaluated at 03:00. -/
theorem getRecentUnmetScheduleTimes_empty_of_last_not_before_now_witness :
    getRecentUnmetScheduleTimes parseHourlyOnly
      (hourlyRecord ⟨0, ⟨"UTC"⟩⟩ (some 1800) (some ⟨3 * Hour, ⟨"UTC"⟩⟩))
      ⟨3 * Hour, ⟨"UTC"⟩⟩ = ([], none) ∧
    getRecentUnmetScheduleTimes parseFebruary30Only
      (february30Record ⟨0, ⟨"UTC"⟩⟩ none (some ⟨5 * Hour, ⟨"UTC"⟩⟩))
      ⟨3 * Hour, ⟨"UTC"⟩⟩ = ([], none) :=
  ⟨getRecentUnmetScheduleTimes_empty_of_last_not_before_now parseHourlyOnly
      (hourlyRecord ⟨0, ⟨"UTC"⟩⟩ (some 1800) (some ⟨3 * Hour, ⟨"UTC"⟩⟩)) ⟨3 * Hour, ⟨"UTC"⟩⟩
      hourlySchedule ⟨3 * Hour, ⟨"UTC"⟩⟩ (parseHourlyOnly_hourly _ _ _) rfl (by decide)
      (Or.inr hourlySchedule_next_gt),
    getRecentUnmetScheduleTimes_empty_of_last_not_before_now parseFebruary30Only
      (february30Record ⟨0, ⟨"UTC"⟩⟩ none (some ⟨5 * Hour, ⟨"UTC"⟩⟩)) ⟨3 * Hour, ⟨"UTC"⟩⟩
      stuckSchedule ⟨5 * Hour, ⟨"UTC"⟩⟩ rfl rfl (by decide) (Or.inl (by decide))⟩

/-! ## The job materialiser: theorems -/

theorem digitChar_spec (m : Nat) (h : m < 10) :
    Nat.digitChar m ≠ '-' ∧ (Nat.digitChar m).toNat - 48 = m := by
  interval_cases m <;> exact ⟨by decide, by decide⟩

theorem decimalValue_append_singleton (pre : List Char) (d : Char) :
    decimalValue (pre ++ [d]) = 10 * decimalValue pre + (d.toNat - 48) := by
  simp [decimalValue, List.foldl_append]

theorem toDigitsCore_spec : ∀ (fuel n : Nat) (ds : List Char), n < fuel →
    ∃ pre : List Char, Nat.toDigitsCore 10 fuel n ds = pre ++ ds ∧ '-' ∉ pre ∧
      decimalValue pre = n := by
  intro fuel
  induction fuel with
  | zero => intro n ds h; omega
  | succ fuel ih =>
    intro n ds h
    obtain ⟨hne, hval⟩ := digitChar_spec (n % 10) (Nat.mod_lt _ (by decide))
    unfold Nat.toDigitsCore
    by_cases h0 : n / 10 = 0
    · refine ⟨[Nat.digitChar (n % 10)], by simp [h0], ?_, ?_⟩
      · simpa using hne.symm
      · simp only [decimalValue, List.foldl_cons, List.foldl_nil, hval]
        omega
    · obtain ⟨pre, hpre, hnot, hv⟩ := ih (n / 10) (Nat.digitChar (n % 10) :: ds) (by omega)
      refine ⟨pre ++ [Nat.digitChar (n % 10)], by simp [h0, hpre], ?_, ?_⟩
      · simp only [List.mem_append, List.mem_singleton, not_or]
        exact ⟨hnot, hne.symm⟩
      · rw [decimalValue_append_singleton, hv, hval]
        omega

theorem toDigits_spec (n : Nat) :
    '-' ∉ Nat.toDigits 10 n ∧ decimalValue (Nat.toDigits 10 n) = n := by
  obtain ⟨pre, hpre, hnot, hv⟩ := toDigitsCore_spec (n + 1) n [] (by omega)
  unfold Nat.toDigits
  rw [hpre, List.append_nil]
  exact ⟨hnot, hv⟩

theorem formatDecimal_data (i : Int) :
    (formatDecimal i).data =
      if i < 0 then '-' :: Nat.toDigits 10 i.natAbs else Nat.toDigits 10 i.natAbs := by
  unfold formatDecimal
  split <;> rfl

theorem parseDecimal_formatDecimal (i : Int) : parseDecimal (formatDecimal i) = i := by
  obtain ⟨hnot, hv⟩ := toDigits_spec i.natAbs
  unfold parseDecimal
  rw [formatDecimal_data]
  by_cases h : i < 0
  · simp only [h, if_true, List.head?_cons, List.tail_cons, hv]
    omega
  · have hhead : (Nat.toDigits 10 i.natAbs).head? ≠ some '-' := by
      intro hh
      exact hnot (List.mem_of_mem_head? hh)
    simp only [h, if_false, hhead, hv]
    omega

theorem split_at_last_separator (c : Char) : ∀ (xs ys ds es : List Char), c ∉ ds → c ∉ es →
    xs ++ c :: ds = ys ++ c :: es → xs = ys ∧ ds = es := by
  intro xs
  induction xs with
  | nil =>
    intro ys ds es hds _ h
    cases ys with
    | nil => simpa using h
    | cons y ys =>
      simp only [List.nil_append, List.cons_append, List.cons.injEq] at h
      exact absurd (h.2 ▸ List.mem_append_right ys (List.mem_cons_self c es)) hds
  | cons x xs ih =>
    intro ys ds es hds hes h
    cases ys with
    | nil =>
      simp only [List.nil_append, List.cons_append, List.cons.injEq] at h
      exact absurd (h.2 ▸ List.mem_append_right xs (List.mem_cons_self c ds)) hes
    | cons y ys =>
      simp only [List.cons_append, List.cons.injEq] at h
      obtain ⟨h1, h2⟩ := ih ys ds es hds hes h.2
      exact ⟨by rw [h.1, h1], h2⟩

theorem getJobFromTemplate_name_data (sj : TZCronJob) (t : Time) :
    (getJobFromTemplate sj t).1.meta.name.data =
      sj.meta.name.data ++ '-' :: (formatDecimal t.Unix).data := by
  simp [getJobFromTemplate, getTimeHash]

/-- Claim C7. For every record and run time, `getJobFromTemplate` returns no
error and a job whose name is the record's name, a hyphen, and the decimal
numeral of the run time's Unix seconds (a numeral that reads back as that
number); so the name depends on the record's name and the Unix seconds only,
and materialising the same record and run time twice gives identical names. -/
theorem getJobFromTemplate_name_deterministic (sj : TZCronJob) (scheduledTime : Time) :
    (getJobFromTemplate sj scheduledTime).2 = none ∧
    (getJobFromTemplate sj scheduledTime).1.meta.name =
      sj.meta.name ++ "-" ++ formatDecimal scheduledTime.Unix ∧
    parseDecimal (formatDecimal scheduledTime.Unix) = scheduledTime.Unix ∧
    (∀ (sj2 : TZCronJob) (t2 : Time), sj2.meta.name = sj.meta.name →
      t2.Unix = scheduledTime.Unix →
      (getJobFromTemplate sj2 t2).1.meta.name = (getJobFromTemplate sj scheduledTime).1.meta.name) ∧
    (getJobFromTemplate (recordNamed "backup" "uid-7") ⟨1700000000123456789, ⟨"UTC"⟩⟩).1.meta.name =
      "backup-1700000000" := by
  refine ⟨rfl, rfl, parseDecimal_formatDecimal _, ?_, by decide⟩
  intro sj2 t2 hname hunix
  simp only [getJobFromTemplate, getTimeHash, hname, hunix]

/-- Counterexample for C8: the record named `a` at five seconds before the
epoch and the record named `a-` at five seconds after it get the same job name,
`a--5`, though the record names and the Unix seconds differ. -/
theorem getJobFromTemplate_name_collision :
    (getJobFromTemplate (recordNamed "a" "uid-1") ⟨-5 * Second, ⟨"UTC"⟩⟩).1.meta.name =
      (getJobFromTemplate (recordNamed "a-" "uid-2") ⟨5 * Second, ⟨"UTC"⟩⟩).1.meta.name ∧
    (recordNamed "a" "uid-1").meta.name ≠ (recordNamed "a-" "uid-2").meta.name ∧
    (⟨-5 * Second, ⟨"UTC"⟩⟩ : Time).Unix ≠ (⟨5 * Second, ⟨"UTC"⟩⟩ : Time).Unix := by
  decide

/-- Claim C8, amended. When both run times are at or after the Unix epoch, or
when neither record name ends in a hyphen: if the job names built by
`getJobFromTemplate` for two records and run times are equal, then the record
names are equal and the run times have the same Unix seconds. -/
theorem getJobFromTemplate_name_injective (sj1 sj2 : TZCronJob) (t1 t2 : Time)
    (hdom : (0 ≤ t1.Unix ∧ 0 ≤ t2.Unix) ∨
      ((∀ p : String, sj1.meta.name ≠ p ++ "-") ∧ (∀ p : String, sj2.meta.name ≠ p ++ "-")))
    (heq : (getJobFromTemplate sj1 t1).1.meta.name = (getJobFromTemplate sj2 t2).1.meta.name) :
    sj1.meta.name = sj2.meta.name ∧ t1.Unix = t2.Unix := by
  have hdata := congrArg String.data heq
  rw [getJobFromTemplate_name_data, getJobFromTemplate_name_data, formatDecimal_data,
    formatDecimal_data] at hdata
  obtain ⟨hn1, hv1⟩ := toDigits_spec t1.Unix.natAbs
  obtain ⟨hn2, hv2⟩ := toDigits_spec t2.Unix.natAbs
  have hends : ∀ (a b : String), a.data = b.data ++ ['-'] → a = b ++ "-" := by
    intro a b h
    apply String.ext
    rw [h]
    rfl
  by_cases h1 : t1.Unix < 0 <;> by_cases h2 : t2.Unix < 0
  · simp only [h1, h2, if_true] at hdata
    have h := split_at_last_separator '-' (sj1.meta.name.data ++ ['-'])
      (sj2.meta.name.data ++ ['-']) _ _ hn1 hn2 (by simpa using hdata)
    have hname : sj1.meta.name.data = sj2.meta.name.data := by simpa using h.1
    have hval := congrArg decimalValue h.2
    rw [hv1, hv2] at hval
    exact ⟨String.ext hname, by omega⟩
  · simp only [h1, h2, if_true, if_false] at hdata
    have h := split_at_last_separator '-' (sj1.meta.name.data ++ ['-'])
      sj2.meta.name.data _ _ hn1 hn2 (by simpa using hdata)
    rcases hdom with ⟨h0, _⟩ | ⟨_, hno⟩
    · omega
    · exact absurd (hends _ _ h.1.symm) (hno _)
  · simp only [h1, h2, if_true, if_false] at hdata
    have h := split_at_last_separator '-' sj1.meta.name.data
      (sj2.meta.name.data ++ ['-']) _ _ hn1 hn2 (by simpa using hdata)
    rcases hdom with ⟨_, h0⟩ | ⟨hno, _⟩
    · omega
    · exact absurd (hends _ _ h.1) (hno _)
  · simp only [h1, h2, if_false] at hdata
    have h := split_at_last_separator '-' sj1.meta.name.data sj2.meta.name.data _ _ hn1 hn2 hdata
    have hval := congrArg decimalValue h.2
    rw [hv1, hv2] at hval
    exact ⟨String.ext h.1, by omega⟩

/-- Witness for C8, amended: two records both named `backup`, with run times in
the same second after the epoch. -/
theorem getJobFromTemplate_name_injective_witness :
    (recordNamed "backup" "uid-1").meta.name = (recordNamed "backup" "uid-2").meta.name ∧
      (⟨1700000000000000000, ⟨"UTC"⟩⟩ : Time).Unix = (⟨1700000000999999999, ⟨"Europe/Vienna"⟩⟩ : Time).Unix :=
  getJobFromTemplate_name_injective (recordNamed "backup" "uid-1") (recordNamed "backup" "uid-2")
    ⟨1700000000000000000, ⟨"UTC"⟩⟩ ⟨1700000000999999999, ⟨"Europe/Vienna"⟩⟩
    (Or.inl ⟨by decide, by decide⟩) (by decide)

/-- Claim C9. For every record and run time, the job built by
`getJobFromTemplate` carries exactly one owner reference; it is marked as
controller, blocks owner deletion, and has the record's name and UID and the
kind `TZCronJob`; and `getParentUIDFromJob` on that job returns the record's
UID with found = true. -/
theorem getJobFromTemplate_owner_reference (sj : TZCronJob) (scheduledTime : Time) :
    (∃ ref : OwnerReference,
      (getJobFromTemplate sj scheduledTime).1.meta.ownerReferences = [ref] ∧
      ref.controller = some true ∧ ref.blockOwnerDeletion = some true ∧
      ref.uid = sj.meta.uid ∧ ref.name = sj.meta.name ∧ ref.kind = "TZCronJob" ∧
      GetControllerOf (getJobFromTemplate sj scheduledTime).1.meta.ownerReferences = some ref) ∧
    getParentUIDFromJob (getJobFromTemplate sj scheduledTime).1 = (sj.meta.uid, true) := by
  refine ⟨⟨NewControllerRef sj.meta controllerKind, rfl, rfl, rfl, rfl, rfl, rfl, rfl⟩, ?_⟩
  simp [getParentUIDFromJob, getJobFromTemplate, GetControllerOf, NewControllerRef, controllerKind]

/-! ## The active-set tracker: theorems -/

theorem deleteLoop_eq_filter (uid : UID) : ∀ (active acc : List ObjectReference),
    active.foldl (fun newActive j => if j.uid != uid then newActive ++ [j] else newActive) acc =
      acc ++ active.filter (fun j => j.uid != uid) := by
  intro active
  induction active with
  | nil => intro acc; simp
  | cons j js ih =>
    intro acc
    rw [List.foldl_cons, ih, List.filter_cons]
    by_cases h : (j.uid != uid) = true
    · simp [h]
    · simp [h]

theorem inActiveListLoop_eq_false_iff (uid : UID) : ∀ (active : List ObjectReference),
    inActiveListLoop uid active = false ↔ ∀ j ∈ active, j.uid ≠ uid := by
  intro active
  induction active with
  | nil => simp [inActiveListLoop]
  | cons j js ih =>
    unfold inActiveListLoop
    by_cases h : j.uid = uid
    · simp [h]
    · simp [h, ih]

/-- Claim C10. For every record and uid, `deleteFromActiveList` leaves
`Status.Active` equal to the previous list without the references whose UID is
`uid`, the others kept in their order, and changes no other field of the
record; afterwards `inActiveList` is false for that uid; if no reference had
the uid, the active list (and so the record) is unchanged; and on a nil record
the call does nothing. -/
theorem deleteFromActiveList_removes_exactly (sj : TZCronJob) (uid : UID) :
    deleteFromActiveList none uid = none ∧
    ∃ sj2 : TZCronJob, deleteFromActiveList (some sj) uid = some sj2 ∧
      sj2.status.active = sj.status.active.filter (fun j => j.uid ≠ uid) ∧
      sj2.meta = sj.meta ∧ sj2.spec = sj.spec ∧
      sj2.status.lastScheduleTime = sj.status.lastScheduleTime ∧
      inActiveList sj2 uid = false ∧
      ((∀ j ∈ sj.status.active, j.uid ≠ uid) → sj2.status.active = sj.status.active ∧ sj2 = sj) ∧
      (∀ j, j ∈ sj2.status.active ↔ j ∈ sj.status.active ∧ j.uid ≠ uid) ∧
      sj2.status.active.Sublist sj.status.active := by
  refine ⟨rfl, ?_⟩
  have hactive : sj.status.active.foldl
      (fun newActive j => if j.uid != uid then newActive ++ [j] else newActive) [] =
      sj.status.active.filter (fun j => j.uid ≠ uid) := by
    rw [deleteLoop_eq_filter, List.nil_append]
    congr 1
    funext j
    by_cases h : j.uid = uid <;> simp [h]
  refine ⟨_, rfl, hactive, rfl, rfl, rfl, ?_, ?_, ?_, ?_⟩
  · unfold inActiveList
    rw [inActiveListLoop_eq_false_iff]
    intro j hj
    change j ∈ sj.status.active.foldl _ [] at hj
    rw [hactive] at hj
    simpa using (List.mem_filter.mp hj).2
  · intro hnone
    have hfilter : sj.status.active.filter (fun j => j.uid ≠ uid) = sj.status.active := by
      rw [List.filter_eq_self]
      intro j hj
      simpa using hnone j hj
    have hsame : sj.status.active.foldl
        (fun newActive j => if j.uid != uid then newActive ++ [j] else newActive) [] =
        sj.status.active := by rw [hactive, hfilter]
    refine ⟨hsame, ?_⟩
    cases sj with
    | mk m sp st =>
      cases st with
      | mk active last =>
        simp only [TZCronJob.mk.injEq, TZCronJobStatus.mk.injEq, true_and, and_true]
        exact hsame
  · intro j
    change j ∈ sj.status.active.foldl _ [] ↔ _
    rw [hactive, List.mem_filter]
    simp
  · change (sj.status.active.foldl _ []).Sublist _
    rw [hactive]
    exact List.filter_sublist _

/-! ## Grouping by parent: theorems -/

theorem JobsByUID.get_set (m : JobsByUID) (k k2 : UID) (v : List Job) :
    (m.set k v).get k2 = if k = k2 then v else m.get k2 := by
  induction m with
  | nil =>
    simp only [JobsByUID.set, JobsByUID.get]
  | cons p rest ih =>
    obtain ⟨k3, v3⟩ := p
    simp only [JobsByUID.set]
    by_cases h : k3 = k
    · subst h
      simp only [if_true, JobsByUID.get]
      by_cases hk : k3 = k2 <;> simp [hk]
    · simp only [h, if_false, JobsByUID.get, ih]
      by_cases h2 : k3 = k2
      · subst h2
        simp [Ne.symm h]
      · simp [h2]

theorem JobsByUID.mem_set (m : JobsByUID) (k : UID) (v : List Job) (p : UID × List Job)
    (hp : p ∈ m.set k v) : p = (k, v) ∨ p ∈ m := by
  induction m with
  | nil =>
    simp only [JobsByUID.set, List.mem_singleton] at hp
    exact Or.inl hp
  | cons q rest ih =>
    obtain ⟨k3, v3⟩ := q
    simp only [JobsByUID.set] at hp
    by_cases h : k3 = k
    · simp only [h, if_true, List.mem_cons] at hp
      rcases hp with hp | hp
      · exact Or.inl hp
      · exact Or.inr (List.mem_cons_of_mem _ hp)
    · simp only [h, if_false, List.mem_cons] at hp
      rcases hp with hp | hp
      · exact Or.inr (by rw [hp]; exact List.mem_cons_self _ _)
      · rcases ih hp with h1 | h1
        · exact Or.inl h1
        · exact Or.inr (List.mem_cons_of_mem _ h1)

theorem JobsByUID.keys_set (m : JobsByUID) (k : UID) (v : List Job) :
    (m.set k v).map Prod.fst =
      if k ∈ m.map Prod.fst then m.map Prod.fst else m.map Prod.fst ++ [k] := by
  induction m with
  | nil => simp [JobsByUID.set]
  | cons q rest ih =>
    obtain ⟨k3, v3⟩ := q
    simp only [JobsByUID.set]
    by_cases h : k3 = k
    · subst h
      simp
    · have hne : ¬ k = k3 := fun hk => h hk.symm
      simp only [h, if_false, List.map_cons, ih, List.mem_cons, hne, false_or]
      by_cases hmem : k ∈ rest.map Prod.fst
      · simp only [hmem, if_true]
      · simp only [hmem, if_false, List.cons_append]

theorem JobsByUID.nodup_keys_set (m : JobsByUID) (k : UID) (v : List Job)
    (h : (m.map Prod.fst).Nodup) : ((m.set k v).map Prod.fst).Nodup := by
  rw [JobsByUID.keys_set]
  by_cases hmem : k ∈ m.map Prod.fst
  · simpa only [hmem, if_true] using h
  · simp only [hmem, if_false]
    rw [List.nodup_append]
    refine ⟨h, List.nodup_singleton k, ?_⟩
    intro a ha hb
    rw [List.mem_singleton] at hb
    exact hmem (hb ▸ ha)

theorem JobsByUID.get_of_mem (m : JobsByUID) (h : (m.map Prod.fst).Nodup)
    (p : UID × List Job) (hp : p ∈ m) : m.get p.1 = p.2 := by
  induction m with
  | nil => simp at hp
  | cons q rest ih =>
    obtain ⟨k3, v3⟩ := q
    simp only [List.map_cons, List.nodup_cons] at h
    rcases List.mem_cons.mp hp with rfl | hp
    · simp [JobsByUID.get]
    · have hne : ¬ k3 = p.1 := by
        intro hk
        exact h.1 (hk ▸ List.mem_map_of_mem Prod.fst hp)
      simp only [JobsByUID.get, hne, if_false]
      exact ih h.2 hp

theorem JobsByUID.mem_of_get_ne_nil (m : JobsByUID) (k : UID) (h : m.get k ≠ []) :
    (k, m.get k) ∈ m := by
  induction m with
  | nil => simp [JobsByUID.get] at h
  | cons q rest ih =>
    obtain ⟨k3, v3⟩ := q
    by_cases hk : k3 = k
    · subst hk
      simp [JobsByUID.get]
    · simp only [JobsByUID.get, hk, if_false] at h ⊢
      exact List.mem_cons_of_mem _ (ih h)

theorem groupJobsByParent_concat (pre : List Job) (j : Job) :
    groupJobsByParent (pre ++ [j]) =
      if (getParentUIDFromJob j).2 = true then
        (groupJobsByParent pre).set (getParentUIDFromJob j).1
          ((groupJobsByParent pre).get (getParentUIDFromJob j).1 ++ [j])
      else groupJobsByParent pre := by
  unfold groupJobsByParent
  rw [List.foldl_append]
  simp only [List.foldl_cons, List.foldl_nil]
  cases hfound : (getParentUIDFromJob j).2 <;> simp [hfound]

theorem groupJobsByParent_invariant (js : List Job) :
    ((groupJobsByParent js).map Prod.fst).Nodup ∧
    (∀ p ∈ groupJobsByParent js, p.2 ≠ []) ∧
    ∀ uid : UID, (groupJobsByParent js).get uid =
      js.filter (fun j => decide (getParentUIDFromJob j = (uid, true))) := by
  induction js using List.reverseRecOn with
  | nil => simp [groupJobsByParent, JobsByUID.get]
  | append_singleton pre j ih =>
    obtain ⟨hnodup, hne, hget⟩ := ih
    rw [groupJobsByParent_concat]
    by_cases hfound : (getParentUIDFromJob j).2 = true
    · rw [if_pos hfound]
      refine ⟨JobsByUID.nodup_keys_set _ _ _ hnodup, ?_, ?_⟩
      · intro p hp
        rcases JobsByUID.mem_set _ _ _ _ hp with rfl | hp
        · simp
        · exact hne p hp
      · intro uid
        rw [JobsByUID.get_set, List.filter_append, hget, hget]
        by_cases hu : (getParentUIDFromJob j).1 = uid
        · have hj : getParentUIDFromJob j = (uid, true) := Prod.ext hu hfound
          simp [hu, hj]
        · have hj : ¬ getParentUIDFromJob j = (uid, true) := fun h => hu (by rw [h])
          simp [hu, hj]
    · rw [if_neg hfound]
      refine ⟨hnodup, hne, ?_⟩
      intro uid
      have hj : ¬ getParentUIDFromJob j = (uid, true) := fun h => hfound (by rw [h])
      rw [List.filter_append, hget uid]
      simp [hj]

theorem getParentUIDFromJob_eq_iff (j : Job) (uid : UID) :
    getParentUIDFromJob j = (uid, true) ↔
      ∃ ref : OwnerReference, GetControllerOf j.meta.ownerReferences = some ref ∧
        ref.kind = "TZCronJob" ∧ ref.uid = uid := by
  unfold getParentUIDFromJob
  cases hc : GetControllerOf j.meta.ownerReferences with
  | none => simp
  | some ref =>
    by_cases hk : ref.kind = "TZCronJob"
    · simp [hk]
    · simp [hk]

/-- Claim C11. For every list of jobs, `groupJobsByParent` returns a map with
distinct keys in which the value at each UID is exactly the list of the input
jobs whose controller owner reference has kind `TZCronJob` and that UID, in
input order (so each such job is there as often as it is in the input, once for
each place); no group is empty; a job is in the group of its own parent only;
and a job with no controller owner reference, or whose controller owner has
another kind, is in no group. -/
theorem groupJobsByParent_groups_by_controller (js : List Job) :
    ((groupJobsByParent js).map Prod.fst).Nodup ∧
    (∀ uid : UID, (groupJobsByParent js).get uid =
      js.filter (fun j => decide (getParentUIDFromJob j = (uid, true)))) ∧
    (∀ p ∈ groupJobsByParent js, p.2 ≠ [] ∧
      p.2 = js.filter (fun j => decide (getParentUIDFromJob j = (p.1, true)))) ∧
    (∀ (j : Job) (uid : UID), getParentUIDFromJob j = (uid, true) ↔
      ∃ ref : OwnerReference, GetControllerOf j.meta.ownerReferences = some ref ∧
        ref.kind = "TZCronJob" ∧ ref.uid = uid) ∧
    (∀ j ∈ js, ∀ uid : UID, getParentUIDFromJob j = (uid, true) →
      (∃ p ∈ groupJobsByParent js, p.1 = uid ∧ j ∈ p.2) ∧
      ∀ p ∈ groupJobsByParent js, j ∈ p.2 → p.1 = uid) ∧
    (∀ j : Job, (GetControllerOf j.meta.ownerReferences = none ∨
        ∃ ref : OwnerReference, GetControllerOf j.meta.ownerReferences = some ref ∧
          ref.kind ≠ "TZCronJob") →
      ∀ p ∈ groupJobsByParent js, j ∉ p.2) := by
  obtain ⟨hnodup, hne, hget⟩ := groupJobsByParent_invariant js
  have hgroup : ∀ p ∈ groupJobsByParent js,
      p.2 = js.filter (fun j => decide (getParentUIDFromJob j = (p.1, true))) := by
    intro p hp
    rw [← hget p.1, JobsByUID.get_of_mem _ hnodup p hp]
  refine ⟨hnodup, hget, fun p hp => ⟨hne p hp, hgroup p hp⟩, getParentUIDFromJob_eq_iff, ?_, ?_⟩
  · intro j hj uid hparent
    constructor
    · have hmem : j ∈ (groupJobsByParent js).get uid := by
        rw [hget uid, List.mem_filter]
        exact ⟨hj, by simp [hparent]⟩
      have hnonempty : (groupJobsByParent js).get uid ≠ [] := List.ne_nil_of_mem hmem
      exact ⟨_, JobsByUID.mem_of_get_ne_nil _ uid hnonempty, rfl, hmem⟩
    · intro p hp hjp
      rw [hgroup p hp, List.mem_filter] at hjp
      have h := hjp.2
      simp only [decide_eq_true_eq] at h
      rw [hparent] at h
      exact (congrArg Prod.fst h).symm
  · intro j hj p hp hjp
    rw [hgroup p hp, List.mem_filter] at hjp
    have h := hjp.2
    simp only [decide_eq_true_eq] at h
    obtain ⟨ref, href, hkind, _⟩ := (getParentUIDFromJob_eq_iff j p.1).mp h
    rcases hj with hnone | ⟨ref2, href2, hkind2⟩
    · rw [hnone] at href
      simp at href
    · rw [href2] at href
      exact hkind2 (by rw [Option.some.inj href]; exact hkind)

/-! ## Completion and the current time: theorems -/

theorem getFinishedStatusLoop_eq_find (cs : List JobCondition) :
    getFinishedStatusLoop cs =
      match cs.find? (fun c =>
        (c.type == JobComplete || c.type == JobFailed) && c.status == ConditionTrue) with
      | some c => (true, c.type)
      | none => (false, "") := by
  induction cs with
  | nil => rfl
  | cons c cs ih =>
    unfold getFinishedStatusLoop
    rw [List.find?_cons]
    by_cases h : ((c.type == JobComplete || c.type == JobFailed) && c.status == ConditionTrue) = true
    · simp only [h, if_true]
    · simp only [h, Bool.false_eq_true, if_false]
      rw [ih]

/-- Claim C12. For every job, `getFinishedStatus` returns finished = true
exactly when some condition of the job has type `Complete` or `Failed` and
status `True`; the returned kind is then the type of the first such condition
in list order, and the result is `(false, "")` otherwise; `IsJobFinished`
returns the same boolean. -/
theorem getFinishedStatus_first_terminal_condition (j : Job) :
    ((getFinishedStatus j).1 = true ↔
      ∃ c ∈ j.status.conditions,
        (c.type = "Complete" ∨ c.type = "Failed") ∧ c.status = "True") ∧
    getFinishedStatus j =
      (match j.status.conditions.find? (fun c =>
          decide ((c.type = "Complete" ∨ c.type = "Failed") ∧ c.status = "True")) with
        | some c => (true, c.type)
        | none => (false, "")) ∧
    IsJobFinished j = (getFinishedStatus j).1 := by
  have hpred : (fun c : JobCondition =>
      (c.type == JobComplete || c.type == JobFailed) && c.status == ConditionTrue) =
      (fun c : JobCondition =>
        decide ((c.type = "Complete" ∨ c.type = "Failed") ∧ c.status = "True")) := by
    funext c
    by_cases h1 : c.type = "Complete" <;> by_cases h2 : c.type = "Failed" <;>
      by_cases h3 : c.status = "True" <;> simp [JobComplete, JobFailed, ConditionTrue, h1, h2, h3]
  have hfind : getFinishedStatus j =
      (match j.status.conditions.find? (fun c =>
          decide ((c.type = "Complete" ∨ c.type = "Failed") ∧ c.status = "True")) with
        | some c => (true, c.type)
        | none => (false, "")) := by
    unfold getFinishedStatus
    rw [getFinishedStatusLoop_eq_find, hpred]
  refine ⟨?_, hfind, rfl⟩
  rw [hfind]
  cases hf : j.status.conditions.find? (fun c =>
      decide ((c.type = "Complete" ∨ c.type = "Failed") ∧ c.status = "True")) with
  | none =>
    simp only [Bool.false_eq_true, false_iff, not_exists, not_and]
    intro c hc hpc hst
    have := List.find?_eq_none.mp hf c hc
    simp only [decide_eq_true_eq] at this
    exact this ⟨hpc, hst⟩
  | some c =>
    simp only [true_iff]
    have hp := List.find?_some hf
    simp only [decide_eq_true_eq] at hp
    exact ⟨c, List.mem_of_find?_eq_some hf, hp⟩

/-- Claim C13. With the reading of the host clock and the timezone lookup as
inputs: `getCurrentTimeInZone` returns an error exactly when the record's
timezone name is non-empty and the lookup fails; with an empty name it returns
the host's current time and no error; with a name that resolves it returns the
same instant in that location and no error; and when the lookup fails the time
returned with the error is the host's current time. -/
theorem getCurrentTimeInZone_error_iff_lookup_fails (timeNow : Time)
    (loadLocation : String → Except String Location) (sj : TZCronJob) :
    ((getCurrentTimeInZone timeNow loadLocation sj).2 ≠ none ↔
      sj.spec.timeZone ≠ "" ∧ ∃ err, loadLocation sj.spec.timeZone = .error err) ∧
    (sj.spec.timeZone = "" → getCurrentTimeInZone timeNow loadLocation sj = (timeNow, none)) ∧
    (∀ loc : Location, sj.spec.timeZone ≠ "" → loadLocation sj.spec.timeZone = .ok loc →
      getCurrentTimeInZone timeNow loadLocation sj = (timeNow.In loc, none) ∧
      (timeNow.In loc).unixNano = timeNow.unixNano ∧ (timeNow.In loc).loc = loc) ∧
    (∀ err : String, sj.spec.timeZone ≠ "" → loadLocation sj.spec.timeZone = .error err →
      getCurrentTimeInZone timeNow loadLocation sj = (timeNow, some err)) := by
  unfold getCurrentTimeInZone
  by_cases htz : sj.spec.timeZone = ""
  · simp [htz]
  · cases hload : loadLocation sj.spec.timeZone with
    | error err => simp [htz]
    | ok loc => simp [htz, Time.In]

/-! ## The simulated backends: theorems -/

/-- Counterexample for C14: on a fresh simulated backend, creating a job named
`hourly-3600` twice returns no error the second time and leaves two units of
that name in the created-units history. -/
theorem fakeJobControl_CreateJob_twice_no_error :
    ((fakeJobControl.fresh.CreateJob "default" (jobNamed "hourly-3600" none)).1.CreateJob
        "default" (jobNamed "hourly-3600" none)).2.2.2 = none ∧
    (((fakeJobControl.fresh.CreateJob "default" (jobNamed "hourly-3600" none)).1.CreateJob
        "default" (jobNamed "hourly-3600" none)).1.Jobs.map (fun j => j.meta.name)) =
      ["hourly-3600", "hourly-3600"] := by
  decide

/-- Claim C14, amended. In the simulated job backend `CreateJob` makes no check
of names: when no error is injected it returns no error, returns the job with
the UID `test-uid`, and appends the job (with its self link set) to the
created-units history, also when a unit of the same name was created before;
when an error is injected it returns that error and no job, and adds nothing
to the history. -/
theorem fakeJobControl_CreateJob_appends_or_injected_error (f : fakeJobControl)
    (namespaceName : String) (job : Job) :
    (f.Err = none →
      (f.CreateJob namespaceName job).2.2.2 = none ∧
      (∃ created : Job, (f.CreateJob namespaceName job).1.Jobs = f.Jobs ++ [created] ∧
        created.meta.name = job.meta.name ∧
        created.meta.selfLink =
          "/api/batch/v1/namespaces/" ++ namespaceName ++ "/jobs/" ++ job.meta.name ∧
        created.meta.uid = job.meta.uid ∧ created.spec = job.spec ∧
        created.status = job.status) ∧
      (∃ returned : Job, (f.CreateJob namespaceName job).2.2.1 = some returned ∧
        (f.CreateJob namespaceName job).2.1 = returned ∧
        returned.meta.name = job.meta.name ∧ returned.meta.uid = "test-uid") ∧
      (f.CreateJob namespaceName job).1.Err = none ∧
      (f.CreateJob namespaceName job).1.DeleteJobName = f.DeleteJobName ∧
      (f.CreateJob namespaceName job).1.UpdateJobName = f.UpdateJobName ∧
      (f.CreateJob namespaceName job).1.PatchJobName = f.PatchJobName ∧
      (f.CreateJob namespaceName job).1.Patches = f.Patches ∧
      (f.CreateJob namespaceName job).1.Job = f.Job) ∧
    (∀ err : String, f.Err = some err →
      f.CreateJob namespaceName job = (f, job, none, some err)) := by
  constructor
  · intro hnone
    have hcreate : f.CreateJob namespaceName job =
        ({ f with Jobs := f.Jobs ++ [{ job with meta := { job.meta with
            selfLink := "/api/batch/v1/namespaces/" ++ namespaceName ++ "/jobs/" ++
              job.meta.name } }] },
          { job with meta := { job.meta with
              selfLink := "/api/batch/v1/namespaces/" ++ namespaceName ++ "/jobs/" ++
                job.meta.name
              uid := "test-uid" } },
          some { job with meta := { job.meta with
              selfLink := "/api/batch/v1/namespaces/" ++ namespaceName ++ "/jobs/" ++
                job.meta.name
              uid := "test-uid" } },
          none) := by
      simp only [fakeJobControl.CreateJob, hnone, Option.isSome_none, Bool.false_eq_true,
        if_false]
    rw [hcreate]
    exact ⟨rfl, ⟨_, rfl, rfl, rfl, rfl, rfl, rfl⟩, ⟨_, rfl, rfl, rfl, rfl⟩, hnone, rfl, rfl, rfl,
      rfl, rfl⟩
  · intro err herr
    simp only [fakeJobControl.CreateJob, herr, Option.isSome_some, if_true]

theorem fakeJobControl_call_of_error (f : fakeJobControl) (err : String)
    (herr : f.Err = some err) (c : JobCall) : f.call c = (f, some err) := by
  cases c <;>
    simp [fakeJobControl.call, fakeJobControl.CreateJob, fakeJobControl.GetJob,
      fakeJobControl.UpdateJob, fakeJobControl.PatchJob, fakeJobControl.DeleteJob, herr]

theorem fakePodControl_call_of_error (f : fakePodControl) (err : String)
    (herr : f.Err = some err) (c : PodCall) : f.call c = (f, some err) := by
  cases c <;>
    simp [fakePodControl.call, fakePodControl.ListPods, fakePodControl.DeletePod, herr]

theorem fakeJobControl_calls_of_error (f : fakeJobControl) (err : String)
    (herr : f.Err = some err) (cs : List JobCall) :
    f.calls cs = (f, cs.map (fun _ => some err)) := by
  induction cs with
  | nil => rfl
  | cons c cs ih =>
    simp only [fakeJobControl.calls, fakeJobControl_call_of_error f err herr c, ih, List.map_cons]

theorem fakePodControl_calls_of_error (f : fakePodControl) (err : String)
    (herr : f.Err = some err) (cs : List PodCall) :
    f.calls cs = (f, cs.map (fun _ => some err)) := by
  induction cs with
  | nil => rfl
  | cons c cs ih =>
    simp only [fakePodControl.calls, fakePodControl_call_of_error f err herr c, ih, List.map_cons]

/-- Claim C15. In the simulated backends, while an error is injected every
operation (`CreateJob`, `GetJob`, `UpdateJob`, `PatchJob`, `DeleteJob`,
`ListPods`, `DeletePod`) returns exactly that error and no object, and leaves
the whole backend (created jobs, deleted, updated and patched names, patch
payloads, canned objects and the injected error itself) as it was; so does any
sequence of consecutive calls, each of which returns that error. -/
theorem fake_backends_injected_error_is_sticky (f : fakeJobControl) (g : fakePodControl)
    (jobErr podErr : String) (hf : f.Err = some jobErr) (hg : g.Err = some podErr) :
    (∀ (ns : String) (job : Job), f.CreateJob ns job = (f, job, none, some jobErr)) ∧
    (∀ ns name : String, f.GetJob ns name = (f, none, some jobErr)) ∧
    (∀ (ns : String) (job : Job), f.UpdateJob ns job = (f, none, some jobErr)) ∧
    (∀ (ns name pt : String) (data : Bytes) (subresources : List String),
      f.PatchJob ns name pt data subresources = (f, none, some jobErr)) ∧
    (∀ ns name : String, f.DeleteJob ns name = (f, some jobErr)) ∧
    (∀ ns opts : String, g.ListPods ns opts = (g, none, some podErr)) ∧
    (∀ ns name : String, g.DeletePod ns name = (g, some podErr)) ∧
    (∀ cs : List JobCall, f.calls cs = (f, cs.map (fun _ => some jobErr))) ∧
    (∀ cs : List PodCall, g.calls cs = (g, cs.map (fun _ => some podErr))) := by
  refine ⟨?_, ?_, ?_, ?_, ?_, ?_, ?_, fakeJobControl_calls_of_error f jobErr hf,
    fakePodControl_calls_of_error g podErr hg⟩
  · intro ns job
    simp [fakeJobControl.CreateJob, hf]
  · intro ns name
    simp [fakeJobControl.GetJob, hf]
  · intro ns job
    simp [fakeJobControl.UpdateJob, hf]
  · intro ns name pt data subresources
    simp [fakeJobControl.PatchJob, hf]
  · intro ns name
    simp [fakeJobControl.DeleteJob, hf]
  · intro ns opts
    simp [fakePodControl.ListPods, hg]
  · intro ns name
    simp [fakePodControl.DeletePod, hg]

/-- Witness for C15: a job backend holding one created job and the injected
error `boom`, and a pod backend with the injected error `bang`: three calls on
the first and two on the second return the errors and change nothing. -/
theorem fake_backends_injected_error_is_sticky_witness :
    (({ fakeJobControl.fresh with Jobs := [jobNamed "a-1" none], Err := some "boom" } :
        fakeJobControl).calls
      [.create "default" (jobNamed "a-2" none), .delete "default" "a-1",
        .patch "default" "a-1" "merge" [123, 125] []]) =
      ({ fakeJobControl.fresh with Jobs := [jobNamed "a-1" none], Err := some "boom" },
        [some "boom", some "boom", some "boom"]) ∧
    (({ Pods := [], DeletePodName := ["p"], Err := some "bang" } : fakePodControl).calls
      [.list "default" "", .delete "default" "q"]) =
      ({ Pods := [], DeletePodName := ["p"], Err := some "bang" }, [some "bang", some "bang"]) :=
  ⟨(fake_backends_injected_error_is_sticky
      { fakeJobControl.fresh with Jobs := [jobNamed "a-1" none], Err := some "boom" }
      { Pods := [], DeletePodName := ["p"], Err := some "bang" } "boom" "bang" rfl rfl).2.2.2.2.2.2.2.1
      _,
    (fake_backends_injected_error_is_sticky
      { fakeJobControl.fresh with Jobs := [jobNamed "a-1" none], Err := some "boom" }
      { Pods := [], DeletePodName := ["p"], Err := some "bang" } "boom" "bang" rfl rfl).2.2.2.2.2.2.2.2
      _⟩

/-- Claim C16, the code at the failing input and in general. `Clear` unsets the
injected error and empties the created jobs and the deleted names, and leaves
the updated names, the patched names, the patch payloads and the canned job as
they were: after one `UpdateJob` and one `PatchJob` on a fresh backend, `Clear`
leaves a backend whose updated names, patched names and patch payloads are
still there, so it is not as a fresh one. -/
theorem fakeJobControl_Clear_keeps_update_and_patch_history (f : fakeJobControl) :
    f.Clear.Err = none ∧ f.Clear.Jobs = [] ∧ f.Clear.DeleteJobName = [] ∧
    f.Clear.UpdateJobName = f.UpdateJobName ∧ f.Clear.PatchJobName = f.PatchJobName ∧
    f.Clear.Patches = f.Patches ∧ f.Clear.Job = f.Job ∧
    (((fakeJobControl.fresh.UpdateJob "default" (jobNamed "job-1" none)).1.PatchJob
        "default" "job-1" "merge" [123, 125] []).1.Clear) =
      { fakeJobControl.fresh with
        UpdateJobName := ["job-1"], PatchJobName := ["job-1"], Patches := [[123, 125]] } ∧
    (((fakeJobControl.fresh.UpdateJob "default" (jobNamed "job-1" none)).1.PatchJob
        "default" "job-1" "merge" [123, 125] []).1.Clear) ≠ fakeJobControl.fresh := by
  refine ⟨rfl, rfl, rfl, rfl, rfl, rfl, rfl, by decide, by decide⟩

/-! ## The deadline boundary, the ordering of jobs and the budget of the loop -/

theorem earliestTime_eq_schedulingDeadline (sj : TZCronJob) (now : Time) (secs : Int)
    (h : sj.spec.startingDeadlineSeconds = some secs) :
    earliestTime sj now =
      if (schedulingDeadline now secs).After
          (match sj.status.lastScheduleTime with
            | some last => last.In now.Location
            | none => sj.meta.creationTimestamp.In now.Location)
        then schedulingDeadline now secs
        else (match sj.status.lastScheduleTime with
            | some last => last.In now.Location
            | none => sj.meta.creationTimestamp.In now.Location) := by
  unfold earliestTime schedulingDeadline
  rw [h]

theorem schedulingDeadline_exact_of_le (now : Time) (secs : Int) (h0 : 0 ≤ secs)
    (h1 : secs ≤ 9223372036) :
    (schedulingDeadline now secs).unixNano = now.unixNano - secs * Second ∧
      (schedulingDeadline now secs).unixNano ≤ now.unixNano := by
  have hmod : (-1000000000 * secs + 2 ^ 63) % 2 ^ 64 = -1000000000 * secs + 2 ^ 63 :=
    Int.emod_eq_of_lt (by omega) (by omega)
  simp only [schedulingDeadline, Time.In, Time.Add, wrapInt64, Second, hmod]
  omega

/-- Claim C17, the code at the failing input. With `startingDeadlineSeconds`
equal to 10000000000 (non-negative and an `int64`), the product with minus one
second wraps around in 64 bits: the deadline boundary the code computes is
8446744073709551616 nanoseconds after `now`, not 10000000000 seconds before it,
so it is later than `now`; and the hourly record created at the epoch with that
deadline, evaluated at 03:05, gets no run time and no error, although 01:00,
02:00 and 03:00 are due. -/
theorem schedulingDeadline_wraps_around (now : Time) :
    (schedulingDeadline now 10000000000).unixNano = now.unixNano + 8446744073709551616 ∧
    now.unixNano < (schedulingDeadline now 10000000000).unixNano ∧
    (schedulingDeadline now 10000000000).unixNano ≠ now.unixNano - 10000000000 * Second ∧
    earliestTime (hourlyRecord ⟨0, ⟨"UTC"⟩⟩ (some 10000000000) none)
        ⟨3 * Hour + 5 * Minute, ⟨"UTC"⟩⟩ =
      schedulingDeadline ⟨3 * Hour + 5 * Minute, ⟨"UTC"⟩⟩ 10000000000 ∧
    getRecentUnmetScheduleTimes parseHourlyOnly
        (hourlyRecord ⟨0, ⟨"UTC"⟩⟩ (some 10000000000) none) ⟨3 * Hour + 5 * Minute, ⟨"UTC"⟩⟩ =
      ([], none) ∧
    getRecentUnmetScheduleTimes parseHourlyOnly
        (hourlyRecord ⟨0, ⟨"UTC"⟩⟩ none none) ⟨3 * Hour + 5 * Minute, ⟨"UTC"⟩⟩ =
      ([⟨Hour, ⟨"UTC"⟩⟩, ⟨2 * Hour, ⟨"UTC"⟩⟩, ⟨3 * Hour, ⟨"UTC"⟩⟩], none) := by
  have hval : (schedulingDeadline now 10000000000).unixNano =
      now.unixNano + 8446744073709551616 := by
    simp only [schedulingDeadline, Time.In, Time.Add, wrapInt64, Second]
    omega
  refine ⟨hval, by omega, by rw [hval]; simp only [Second]; omega, by decide, ?_, ?_⟩
  · have hparse := parseHourlyOnly_hourly ⟨0, ⟨"UTC"⟩⟩ (some 10000000000) none
    rw [getRecentUnmetScheduleTimes_eq parseHourlyOnly _ _ hourlySchedule hparse]
    have hafter : (earliestTime (hourlyRecord ⟨0, ⟨"UTC"⟩⟩ (some 10000000000) none)
        ⟨3 * Hour + 5 * Minute, ⟨"UTC"⟩⟩).After ⟨3 * Hour + 5 * Minute, ⟨"UTC"⟩⟩ = true := by
      decide
    rw [if_pos hafter]
  · have h := hourly_no_deadline_three_due parseHourlyOnly (hourlyRecord ⟨0, ⟨"UTC"⟩⟩ none none)
      0 ⟨"UTC"⟩ rfl rfl rfl rfl rfl
    have e1 : (0 : Int) * Hour + 3 * Hour + 5 * Minute = 3 * Hour + 5 * Minute := by
      simp only [Hour, Minute, Second]; omega
    have e2 : (0 : Int) * Hour + Hour = Hour := by simp only [Hour, Second]; omega
    have e3 : (0 : Int) * Hour + 2 * Hour = 2 * Hour := by simp only [Hour, Second]; omega
    have e4 : (0 : Int) * Hour + 3 * Hour = 3 * Hour := by simp only [Hour, Second]; omega
    rw [e1, e2, e3, e4] at h
    exact h

theorem lessByJobStartTime_iff (a b : Job) :
    lessByJobStartTime a b = true ↔
      match a.status.startTime, b.status.startTime with
      | some ta, some tb =>
        ta.unixNano < tb.unixNano ∨ (ta.unixNano = tb.unixNano ∧ a.meta.name < b.meta.name)
      | some _, none => True
      | none, _ => False := by
  unfold lessByJobStartTime
  cases ha : a.status.startTime <;> cases hb : b.status.startTime <;>
    simp only [Option.isNone_none, Option.isNone_some, Option.isSome_none, Option.isSome_some,
      metaTimeEqual, metaTimeBefore, Time.Equal, Time.Before, if_true, if_false,
      Bool.false_eq_true, iff_false, iff_true, not_false_eq_true]
  rename_i ta tb
  by_cases heq : ta.unixNano = tb.unixNano
  · simp [heq]
  · simp [heq]

/-- Claim C18, the code at the failing input and in general. For two jobs of
the slice that both have a start timestamp, `Less(i, j)` holds when the one of
`i` is before the one of `j`, and when the two are equal it holds exactly when
the name of `i` is smaller than the name of `j`.  For two jobs without a start
timestamp `Less(i, j)` is false whatever the names: for the jobs `a` and `b`,
neither with a start timestamp, `Less` is false both ways although `a` is
smaller than `b` and two absent timestamps are equal for `Equal`. -/
theorem byJobStartTime_Less_no_tie_break_without_start_time (o : List Job)
    (i j : Fin o.length) :
    (∀ ti tj : Time, (o.get i).status.startTime = some ti →
      (o.get j).status.startTime = some tj → ti.unixNano < tj.unixNano →
      byJobStartTime.Less o i j = true) ∧
    (∀ ti tj : Time, (o.get i).status.startTime = some ti →
      (o.get j).status.startTime = some tj → ti.unixNano = tj.unixNano →
      (byJobStartTime.Less o i j = true ↔ (o.get i).meta.name < (o.get j).meta.name)) ∧
    ((o.get i).status.startTime = none → (o.get j).status.startTime = none →
      byJobStartTime.Less o i j = false) ∧
    byJobStartTime.Less [jobNamed "a" none, jobNamed "b" none] ⟨0, by decide⟩ ⟨1, by decide⟩
      = false ∧
    byJobStartTime.Less [jobNamed "a" none, jobNamed "b" none] ⟨1, by decide⟩ ⟨0, by decide⟩
      = false ∧
    (jobNamed "a" none).meta.name < (jobNamed "b" none).meta.name ∧
    metaTimeEqual (jobNamed "a" none).status.startTime (jobNamed "b" none).status.startTime
      = true := by
  refine ⟨?_, ?_, ?_, by decide, by decide, String.lt_iff_toList_lt.mpr (by decide), by decide⟩
  · intro ti tj hi hj hlt
    unfold byJobStartTime.Less
    rw [lessByJobStartTime_iff, hi, hj]
    exact Or.inl hlt
  · intro ti tj hi hj heq
    unfold byJobStartTime.Less
    rw [lessByJobStartTime_iff, hi, hj]
    constructor
    · rintro (h | h)
      · omega
      · exact h.2
    · exact fun h => Or.inr ⟨heq, h⟩
  · intro hi hj
    unfold byJobStartTime.Less
    rw [← Bool.not_eq_true, lessByJobStartTime_iff, hi, hj]
    exact fun h => h

theorem lessByJobStartTime_irrefl (a : Job) : lessByJobStartTime a a = false := by
  rw [← Bool.not_eq_true, lessByJobStartTime_iff]
  cases a.status.startTime with
  | none => exact fun h => h
  | some ta =>
    rintro (h | h)
    · omega
    · exact lt_irrefl _ h.2

theorem lessByJobStartTime_trans (a b c : Job) (hab : lessByJobStartTime a b = true)
    (hbc : lessByJobStartTime b c = true) : lessByJobStartTime a c = true := by
  rw [lessByJobStartTime_iff] at hab hbc ⊢
  cases ha : a.status.startTime <;> cases hb : b.status.startTime <;>
    cases hc : c.status.startTime <;> simp only [ha, hb, hc] at hab hbc ⊢
  rename_i ta tb tc
  rcases hab with h1 | ⟨h1, n1⟩ <;> rcases hbc with h2 | ⟨h2, n2⟩
  · exact Or.inl (by omega)
  · exact Or.inl (by omega)
  · exact Or.inl (by omega)
  · exact Or.inr ⟨by omega, lt_trans n1 n2⟩

theorem lessByJobStartTime_incomparable_iff (a b : Job) :
    (lessByJobStartTime a b = false ∧ lessByJobStartTime b a = false) ↔
      match a.status.startTime, b.status.startTime with
      | some ta, some tb => ta.unixNano = tb.unixNano ∧ a.meta.name = b.meta.name
      | none, none => True
      | _, _ => False := by
  rw [← Bool.not_eq_true, ← Bool.not_eq_true, lessByJobStartTime_iff, lessByJobStartTime_iff]
  cases ha : a.status.startTime <;> cases hb : b.status.startTime <;> simp only []
  · simp
  · simp
  · simp
  · rename_i ta tb
    constructor
    · rintro ⟨h1, h2⟩
      have ht : ta.unixNano = tb.unixNano := by
        by_contra hne
        rcases lt_or_gt_of_ne hne with h | h
        · exact h1 (Or.inl h)
        · exact h2 (Or.inl h)
      refine ⟨ht, le_antisymm ?_ ?_⟩
      · exact not_lt.mp (fun h => h2 (Or.inr ⟨ht.symm, h⟩))
      · exact not_lt.mp (fun h => h1 (Or.inr ⟨ht, h⟩))
    · rintro ⟨ht, hn⟩
      rw [hn]
      constructor
      · rintro (h | h)
        · omega
        · exact lt_irrefl _ h.2
      · rintro (h | h)
        · omega
        · exact lt_irrefl _ h.2

theorem lessByJobStartTime_incomparable_trans (a b c : Job)
    (hab : lessByJobStartTime a b = false ∧ lessByJobStartTime b a = false)
    (hbc : lessByJobStartTime b c = false ∧ lessByJobStartTime c b = false) :
    lessByJobStartTime a c = false ∧ lessByJobStartTime c a = false := by
  rw [lessByJobStartTime_incomparable_iff] at hab hbc ⊢
  cases ha : a.status.startTime <;> cases hb : b.status.startTime <;>
    cases hc : c.status.startTime <;> simp only [ha, hb, hc] at hab hbc ⊢
  exact ⟨by omega, hab.2.trans hbc.2⟩

/-- Claim C19. On any slice of jobs `byJobStartTime.Less` is a strict weak
ordering: it is irreflexive, asymmetric and transitive, and being incomparable
(neither less than the other) is transitive; and a job with a start timestamp
is less than every job without one, never the other way round. -/
theorem byJobStartTime_Less_strict_weak_order (o : List Job) (i j k : Fin o.length) :
    byJobStartTime.Less o i i = false ∧
    (byJobStartTime.Less o i j = true → byJobStartTime.Less o j i = false) ∧
    (byJobStartTime.Less o i j = true → byJobStartTime.Less o j k = true →
      byJobStartTime.Less o i k = true) ∧
    (byJobStartTime.Less o i j = false ∧ byJobStartTime.Less o j i = false →
      byJobStartTime.Less o j k = false ∧ byJobStartTime.Less o k j = false →
      byJobStartTime.Less o i k = false ∧ byJobStartTime.Less o k i = false) ∧
    ((o.get i).status.startTime ≠ none → (o.get j).status.startTime = none →
      byJobStartTime.Less o i j = true ∧ byJobStartTime.Less o j i = false) := by
  unfold byJobStartTime.Less
  refine ⟨lessByJobStartTime_irrefl _, ?_, lessByJobStartTime_trans _ _ _,
    lessByJobStartTime_incomparable_trans _ _ _, ?_⟩
  · intro hij
    cases hji : lessByJobStartTime (o.get j) (o.get i) with
    | false => rfl
    | true =>
      have := lessByJobStartTime_trans _ _ _ hij hji
      rw [lessByJobStartTime_irrefl] at this
      exact absurd this (by decide)
  · intro hi hj
    constructor
    · rw [lessByJobStartTime_iff, hj]
      cases hs : (o.get i).status.startTime with
      | none => exact absurd hs hi
      | some ti => trivial
    · rw [← Bool.not_eq_true, lessByJobStartTime_iff, hj]
      exact fun h => h

theorem collectStartsWithin_eq_collectStarts (sched : Schedule) (now : Time) :
    ∀ (k : Nat) (t : Time) (starts : List Time), starts.length + (k + 1) = 101 →
      collectStartsWithin sched now (k + 1) t starts = some (collectStarts sched now t starts) := by
  intro k
  induction k with
  | zero =>
    intro t starts hlen
    have hlt : 100 < (starts ++ [t]).length := by
      simp only [List.length_append, List.length_singleton]; omega
    rw [collectStarts, collectStartsWithin]
    by_cases h : t.After now = true
    · simp only [h, if_true]
    · simp only [h, Bool.false_eq_true, if_false, hlt, if_true]
  | succ k ih =>
    intro t starts hlen
    have hlt : ¬ 100 < (starts ++ [t]).length := by
      simp only [List.length_append, List.length_singleton]; omega
    rw [collectStarts, collectStartsWithin]
    by_cases h : t.After now = true
    · simp only [h, if_true]
    · simp only [h, Bool.false_eq_true, if_false, hlt]
      exact ih (sched.next t) (starts ++ [t])
        (by simp only [List.length_append, List.length_singleton]; omega)

theorem collectStarts_length_le (sched : Schedule) (now t : Time) :
    (collectStarts sched now t []).1.length ≤ 100 := by
  rw [collectStarts_eq_orbit sched now 100 t [] (by simp)]
  split
  · simp
  · rename_i h
    simp only [List.length_nil, Nat.zero_add, not_lt] at h
    simpa using h

set_option maxRecDepth 100000 in
theorem stuckSchedule_needs_101_passes :
    collectStartsWithin stuckSchedule ⟨0, ⟨"UTC"⟩⟩ 100 (stuckSchedule.next ⟨0, ⟨"UTC"⟩⟩) [] = none ∧
    collectStartsWithin stuckSchedule ⟨0, ⟨"UTC"⟩⟩ 101 (stuckSchedule.next ⟨0, ⟨"UTC"⟩⟩) [] =
      some ([], some tooManyMissedStartTimes) := by
  constructor <;> decide

/-- Claim C20. For any next-occurrence function whatsoever, the collection
loop of `getRecentUnmetScheduleTimes` returns within 101 passes through its
body, and the sequence it returns, like the one `getRecentUnmetScheduleTimes`
returns for any parser, record and `now`, has at most 100 run times.  For the
schedule that always answers the zero time, 100 passes are not enough and the
result is the empty sequence with the error. -/
theorem collectStarts_returns_within_101_passes (sched : Schedule) (now t : Time)
    (parseStandard : String → Except String Schedule) (sj : TZCronJob) :
    collectStartsWithin sched now 101 t [] = some (collectStarts sched now t []) ∧
    (collectStarts sched now t []).1.length ≤ 100 ∧
    (getRecentUnmetScheduleTimes parseStandard sj now).1.length ≤ 100 ∧
    collectStartsWithin stuckSchedule ⟨0, ⟨"UTC"⟩⟩ 100 (stuckSchedule.next ⟨0, ⟨"UTC"⟩⟩) [] = none ∧
    collectStartsWithin stuckSchedule ⟨0, ⟨"UTC"⟩⟩ 101 (stuckSchedule.next ⟨0, ⟨"UTC"⟩⟩) [] =
      some ([], some tooManyMissedStartTimes) ∧
    getRecentUnmetScheduleTimes (fun _ => .ok stuckSchedule) (hourlyRecord ⟨0, ⟨"UTC"⟩⟩ none none)
      ⟨0, ⟨"UTC"⟩⟩ = ([], some tooManyMissedStartTimes) := by
  have hstuck := stuckSchedule_needs_101_passes.2
  refine ⟨collectStartsWithin_eq_collectStarts sched now 100 t [] (by simp),
    collectStarts_length_le sched now t, ?_, stuckSchedule_needs_101_passes.1, hstuck, ?_⟩
  · unfold getRecentUnmetScheduleTimes
    cases parseStandard sj.spec.schedule with
    | error err => simp
    | ok sched2 =>
      simp only []
      split
      · simp
      · exact collectStarts_length_le sched2 now _
  · have h := collectStartsWithin_eq_collectStarts stuckSchedule ⟨0, ⟨"UTC"⟩⟩ 100
      (stuckSchedule.next ⟨0, ⟨"UTC"⟩⟩) [] (by simp)
    rw [hstuck] at h
    have hearly : (earliestTime (hourlyRecord ⟨0, ⟨"UTC"⟩⟩ none none) ⟨0, ⟨"UTC"⟩⟩).After
        ⟨0, ⟨"UTC"⟩⟩ = false := by decide
    have he : earliestTime (hourlyRecord ⟨0, ⟨"UTC"⟩⟩ none none) ⟨0, ⟨"UTC"⟩⟩ = ⟨0, ⟨"UTC"⟩⟩ := by
      decide
    unfold getRecentUnmetScheduleTimes
    simp only [hearly, Bool.false_eq_true, if_false, he]
    exact (Option.some.inj h).symm

/-! ## A schedule that parses and never occurs -/

theorem getRecentUnmetScheduleTimes_stuck_at_epoch
    (parseStandard : String → Except String Schedule) (sj : TZCronJob)
    (hparse : parseStandard sj.spec.schedule = .ok stuckSchedule)
    (he : earliestTime sj ⟨0, ⟨"UTC"⟩⟩ = ⟨0, ⟨"UTC"⟩⟩) :
    getRecentUnmetScheduleTimes parseStandard sj ⟨0, ⟨"UTC"⟩⟩ =
      ([], some tooManyMissedStartTimes) := by
  have h := collectStartsWithin_eq_collectStarts stuckSchedule ⟨0, ⟨"UTC"⟩⟩ 100
    (stuckSchedule.next ⟨0, ⟨"UTC"⟩⟩) [] (by simp)
  rw [stuckSchedule_needs_101_passes.2] at h
  have hearly : (⟨0, ⟨"UTC"⟩⟩ : Time).After ⟨0, ⟨"UTC"⟩⟩ = false := by decide
  unfold getRecentUnmetScheduleTimes
  rw [hparse]
  simp only [he, hearly, Bool.false_eq_true, if_false]
  exact (Option.some.inj h).symm

/-- Counterexample for C3: the schedule `"0 0 30 2 *"` parses and its next
occurrence is always the zero time.  For a record created at the epoch with no
last schedule time and no deadline, evaluated at the epoch, the earliest time
is `now` (so it is not after `now`) and no instant at all lies after the
earliest time and not after `now`; yet the result is the empty sequence with
the error "too many missed start time". -/
theorem getRecentUnmetScheduleTimes_too_many_without_occurrences :
    parseFebruary30Only (february30Record ⟨0, ⟨"UTC"⟩⟩ none none).spec.schedule =
      .ok stuckSchedule ∧
    (earliestTime (february30Record ⟨0, ⟨"UTC"⟩⟩ none none) ⟨0, ⟨"UTC"⟩⟩).After ⟨0, ⟨"UTC"⟩⟩
      = false ∧
    (occurrencesBetween (fun _ => True)
      (earliestTime (february30Record ⟨0, ⟨"UTC"⟩⟩ none none) ⟨0, ⟨"UTC"⟩⟩).unixNano
      (⟨0, ⟨"UTC"⟩⟩ : Time).unixNano).ncard = 0 ∧
    getRecentUnmetScheduleTimes parseFebruary30Only (february30Record ⟨0, ⟨"UTC"⟩⟩ none none)
      ⟨0, ⟨"UTC"⟩⟩ = ([], some tooManyMissedStartTimes) := by
  have he : earliestTime (february30Record ⟨0, ⟨"UTC"⟩⟩ none none) ⟨0, ⟨"UTC"⟩⟩ =
      ⟨0, ⟨"UTC"⟩⟩ := by decide
  refine ⟨rfl, by decide, ?_, getRecentUnmetScheduleTimes_stuck_at_epoch _ _ rfl he⟩
  rw [he]
  have hempty : occurrencesBetween (fun _ => True) (⟨0, ⟨"UTC"⟩⟩ : Time).unixNano
      (⟨0, ⟨"UTC"⟩⟩ : Time).unixNano = ∅ := by
    ext i
    simp only [occurrencesBetween, Set.mem_setOf_eq, Set.mem_empty_iff_false, iff_false]
    omega
  rw [hempty, Set.ncard_empty]

/-- Counterexample for C6: the schedule `"0 0 30 2 *"` parses and its next
occurrence is always the zero time.  For a record whose last schedule time is
exactly `now` (the epoch), the result is the empty sequence with the error
"too many missed start time", not without error. -/
theorem getRecentUnmetScheduleTimes_error_with_last_at_now :
    parseFebruary30Only
        (february30Record ⟨0, ⟨"UTC"⟩⟩ none (some ⟨0, ⟨"UTC"⟩⟩)).spec.schedule =
      .ok stuckSchedule ∧
    (february30Record ⟨0, ⟨"UTC"⟩⟩ none (some ⟨0, ⟨"UTC"⟩⟩)).status.lastScheduleTime =
      some ⟨0, ⟨"UTC"⟩⟩ ∧
    getRecentUnmetScheduleTimes parseFebruary30Only
        (february30Record ⟨0, ⟨"UTC"⟩⟩ none (some ⟨0, ⟨"UTC"⟩⟩)) ⟨0, ⟨"UTC"⟩⟩ =
      ([], some tooManyMissedStartTimes) ∧
    getRecentUnmetScheduleTimes parseFebruary30Only
        (february30Record ⟨0, ⟨"UTC"⟩⟩ none (some ⟨0, ⟨"UTC"⟩⟩)) ⟨0, ⟨"UTC"⟩⟩ ≠ ([], none) := by
  have hres := getRecentUnmetScheduleTimes_stuck_at_epoch parseFebruary30Only
    (february30Record ⟨0, ⟨"UTC"⟩⟩ none (some ⟨0, ⟨"UTC"⟩⟩)) rfl (by decide)
  refine ⟨rfl, rfl, hres, ?_⟩
  rw [hres]
  decide

end Cronjobber
